import Mathlib

/-!
Verification of the profit-and-loss consolidation engine in excel.py.

The two functions under study are consolidate_pl_sheets and calculate_yoy.
The shallow embedding below models a pandas DataFrame cell as an optional
string (none models a missing value, NaN; some s models a cell whose
stringified form is s), a grid as a list of rows, and amounts as rationals
that are truncated to integers exactly where the source applies astype int.
Row order of merged tables is never relied upon by the theorems below,
since the pandas union-index order is a library detail; all statements
about merged tables are order-insensitive (membership, counts, sums,
lookups) or pin inputs where every order coincides.
-/

set_option maxRecDepth 200000

namespace Excel

/-- Whitespace as matched by the backslash-s class of the Python regex
module and stripped by str.strip, restricted to the ASCII range. -/
def wsChar (c : Char) : Bool :=
  c = ' ' || c = '\t' || c = '\n' || c = '\r' || c = '\x0b' || c = '\x0c'

/-- Remove leading and trailing whitespace from a character list
(the embedding of str.strip). -/
def trimList (l : List Char) : List Char :=
  ((l.dropWhile wsChar).reverse.dropWhile wsChar).reverse

/-- String form of str.strip. -/
def pyTrim (s : String) : String :=
  String.mk (trimList s.data)

/-- Numeric value of a digit character. -/
def charVal (c : Char) : Nat := c.toNat - 48

/-- Value of a digit string, most significant digit first
(the embedding of int applied to a digit string). -/
def digitsToNat (l : List Char) : Nat :=
  l.foldl (fun a c => 10 * a + charVal c) 0

/-- Decimal digit characters, as printed by str applied to an int. -/
def digitChar : Nat → Char
  | 0 => '0' | 1 => '1' | 2 => '2' | 3 => '3' | 4 => '4'
  | 5 => '5' | 6 => '6' | 7 => '7' | 8 => '8' | _ => '9'

/-- Fuelled decimal printer for naturals; fuel at least n + 1 suffices. -/
def natToStrGo : Nat → Nat → List Char
  | 0, _ => []
  | fuel + 1, n =>
    if n < 10 then [digitChar n]
    else natToStrGo fuel (n / 10) ++ [digitChar (n % 10)]

/-- Decimal rendering of a natural number, the embedding of str applied
to the int occurrence counter in the source. -/
def natToStr (n : Nat) : String :=
  String.mk (natToStrGo (n + 1) n)

/-- A grid cell: none models a missing value (NaN); some s models a cell
whose stringified form is s. -/
abbrev Cell := Option String

/-- The raw rectangular grid handed to consolidate_pl_sheets. -/
abbrev Grid := List (List Cell)

/-- Cell access, df_full.iat r c; out-of-range reads are missing. -/
def getCell (g : Grid) (r c : Nat) : Cell :=
  (g[r]?.bind (fun row => row[c]?)).join

/-- Number of rows of the grid, len of df_full. -/
def nRows (g : Grid) : Nat := g.length

/-- Number of columns of the grid, df_full.shape 1; pandas grids are
rectangular, so the maximum row length is the common row length. -/
def nCols (g : Grid) : Nat := (g.map List.length).foldr max 0

/-- Result of astype str on a cell: a missing value prints as "nan". -/
def cellStr (c : Cell) : String :=
  match c with
  | none => "nan"
  | some s => s

/-- The year pattern of line 23 of excel.py, caret backslash-s star 2 0
digit digit backslash-s star dollar, as a matcher on character lists. -/
def yearPatList (cs : List Char) : Bool :=
  match cs.dropWhile wsChar with
  | '2' :: '0' :: a :: b :: rest => a.isDigit && b.isDigit && rest.all wsChar
  | _ => false

/-- Whether the year regex matches the stringified cell value. -/
def yearPatMatch (s : String) : Bool := yearPatList s.data

/-- Year value of a matching cell, int applied to the stripped string. -/
def yearNat (s : String) : Nat := digitsToNat (trimList s.data)

/-- A located year header, the dictionary built on line 29 of excel.py. -/
structure YearCell where
  row : Nat
  col : Nat
  year : Nat
deriving DecidableEq

/-- Scan one grid row (row index r) from column index c for year headers;
missing cells never match because of the pd.notna guard. -/
def scanRowFrom (r c : Nat) : List Cell → List YearCell
  | [] => []
  | none :: rest => scanRowFrom r (c + 1) rest
  | some s :: rest =>
    (if yearPatMatch s then [⟨r, c, yearNat s⟩] else []) ++ scanRowFrom r (c + 1) rest

/-- Scan all grid rows starting at row index r for year headers. -/
def scanRows : Nat → List (List Cell) → List YearCell
  | _, [] => []
  | r, row :: rest => scanRowFrom r 0 row ++ scanRows (r + 1) rest

/-- All year headers of the grid in row-major scan order, the year_cells
list of lines 24 to 29 of excel.py. -/
def yearCellsOf (g : Grid) : List YearCell := scanRows 0 g

/-- Stable insertion of a year cell into a row-sorted list, placing the
new cell before any cell with the same row (the new cell stems from an
earlier position of the original list). -/
def insertByRow (x : YearCell) : List YearCell → List YearCell
  | [] => [x]
  | y :: ys => if x.row ≤ y.row then x :: y :: ys else y :: insertByRow x ys

/-- Stable sort by row, the embedding of year_cells.sort with key row on
line 34 of excel.py. -/
def sortByRow : List YearCell → List YearCell
  | [] => []
  | x :: xs => insertByRow x (sortByRow xs)

/-- Keep only the first cell of each year value, the processed_years loop
of lines 36 to 41 of excel.py. -/
def firstPerYear (seen : List Nat) : List YearCell → List YearCell
  | [] => []
  | c :: cs =>
    if c.year ∈ seen then firstPerYear seen cs
    else c :: firstPerYear (c.year :: seen) cs

/-- The unique_year_cells list of excel.py. -/
def uniqueYearCells (g : Grid) : List YearCell :=
  firstPerYear [] (sortByRow (yearCellsOf g))

/-- A block definition of lines 43 to 50 of excel.py: one extraction pass
for one retained year header. -/
structure BlockDef where
  year : Nat
  col : Nat
  start : Nat
  stop : Nat
deriving DecidableEq

/-- Build block definitions from the retained year cells: data rows run
from the row after the header to the row of the next retained header, or
to the end of the grid for the last one. -/
def blockDefsAux (numRows : Nat) : List YearCell → List BlockDef
  | [] => []
  | c :: rest =>
    ⟨c.year, c.col, c.row + 1,
      match rest with
      | [] => numRows
      | d :: _ => d.row⟩ :: blockDefsAux numRows rest

/-- The block_definitions list of excel.py. -/
def blockDefinitions (g : Grid) : List BlockDef :=
  blockDefsAux (nRows g) (uniqueYearCells g)

/-- Comma stripping of line 78 of excel.py: the regex replace removes
every comma of the string. -/
def removeCommas (s : String) : String :=
  String.mk (s.data.filter (fun c => c ≠ ','))

/-- Decimal literal parsing, the embedding of pd.to_numeric on a
stringified cell: optional surrounding whitespace, optional sign, then
digits with an optional fractional part.  Exotic float syntax such as
exponents or infinities is outside the modelled input domain. -/
def parseDecimal (cs : List Char) : Option ℚ :=
  let t := trimList cs
  let core := fun (l : List Char) =>
    let ip := l.takeWhile Char.isDigit
    match l.dropWhile Char.isDigit with
    | [] => if ip.isEmpty then none else some ((digitsToNat ip : ℚ))
    | '.' :: fp =>
      if fp.all Char.isDigit && !(ip.isEmpty && fp.isEmpty) then
        some ((digitsToNat ip : ℚ) + (digitsToNat fp : ℚ) / (10 : ℚ) ^ fp.length)
      else none
    | _ => none
  match t with
  | '-' :: rest => (core rest).map (fun q => -q)
  | '+' :: rest => core rest
  | _ => core t

/-- Amount coercion of lines 78 and 79 of excel.py: strip commas, parse
as a number, and coerce failures and missing cells to 0. -/
def parseAmount (c : Cell) : ℚ :=
  match c with
  | none => 0
  | some s =>
    match parseDecimal (removeCommas s).data with
    | some q => q
    | none => 0

/-- The catch-all sentinel label of the source. -/
def sentinel : String := "その他"

/-- The disambiguation name given to the k-th sentinel row of one
extraction pass, line 84 of excel.py. -/
def tagName (k : Nat) : String := sentinel ++ "_temp_" ++ natToStr k

/-- The suffix-stripping regex replace of line 99 of excel.py: remove a
trailing underscore-temp-underscore-digits suffix when present. -/
def stripTempSuffix (s : String) : String :=
  if (s.data.reverse.takeWhile Char.isDigit).isEmpty then s
  else if (s.data.reverse.drop
      (s.data.reverse.takeWhile Char.isDigit).length).take 6 =
      ['_', 'p', 'm', 'e', 't', '_'] then
    String.mk ((s.data.reverse.drop
      ((s.data.reverse.takeWhile Char.isDigit).length + 6)).reverse)
  else s

/-- Rows of one extraction pass after name cleaning, lines 63 to 71 of
excel.py: item names are stringified and stripped, and rows with an
empty stripped name are dropped.  The dropna of line 69 runs after
astype str and therefore never removes a row. -/
def cleanedRows (g : Grid) (start stop col : Nat) : List (String × Cell) :=
  (List.range' start (stop - start)).filterMap (fun r =>
    let nm := pyTrim (cellStr (getCell g r 0))
    if nm = "" then none else some (nm, getCell g r col))

/-- The deduplication of lines 73 to 76 of excel.py: sentinel rows are
all kept, any other name keeps only its first occurrence, and the
sort_index restores the original row order. -/
def dedupRows (seen : List String) : List (String × Cell) → List (String × Cell)
  | [] => []
  | (n, v) :: rest =>
    if n = sentinel then (n, v) :: dedupRows seen rest
    else if n ∈ seen then dedupRows seen rest
    else (n, v) :: dedupRows (n :: seen) rest

/-- The sentinel tagging of lines 81 to 84 of excel.py: the k-th
sentinel row of the pass gets the k-th disambiguation name; all other
rows are unchanged.  When no sentinel row exists this is the identity,
matching the is_sonota.any guard. -/
def tagSonota (k : Nat) : List (String × ℚ) → List (String × ℚ)
  | [] => []
  | (n, q) :: rest =>
    if n = sentinel then (tagName k, q) :: tagSonota (k + 1) rest
    else (n, q) :: tagSonota k rest

/-- One full extraction pass on cleaned rows: dedup, numeric coercion,
sentinel tagging, in the order of lines 73 to 84 of excel.py. -/
def processRows (rows : List (String × Cell)) : List (String × ℚ) :=
  tagSonota 0 ((dedupRows [] rows).map (fun p => (p.1, parseAmount p.2)))

/-- The per-year contribution appended to dfs on line 87 of excel.py. -/
structure Frame where
  year : Nat
  rows : List (String × ℚ)
deriving DecidableEq

/-- All per-year contributions of the grid, lines 53 to 87 of excel.py.
A block is skipped when the required columns do not exist or when no
cleaned row remains. -/
def frames (g : Grid) : List Frame :=
  (blockDefinitions g).filterMap (fun b =>
    if 0 < nCols g ∧ b.col < nCols g then
      let rows := cleanedRows g b.start b.stop b.col
      if rows = [] then none
      else some ⟨b.year, processRows rows⟩
    else none)

/-- Union of the item keys of all contributions, in order of first
appearance and without duplicates, the index union of the outer join of
line 93 of excel.py. -/
def keysUnion (fs : List Frame) : List String :=
  (fs.flatMap (fun f => f.rows.map Prod.fst)).foldl
    (fun acc n => if n ∈ acc then acc else acc ++ [n]) []

/-- First-match lookup of a key in a contribution, with the fillna 0 of
line 93 of excel.py for absent keys. -/
def lookupD (rows : List (String × ℚ)) (k : String) : ℚ :=
  match rows.find? (fun p => p.1 = k) with
  | some p => p.2
  | none => 0

/-- Value of item k in year y after the outer join and zero fill. -/
def mergedValue (fs : List Frame) (k : String) (y : Nat) : ℚ :=
  match fs.find? (fun f => f.year = y) with
  | some f => lookupD f.rows k
  | none => 0

/-- Insertion into an ascending list of naturals. -/
def insertNat (x : Nat) : List Nat → List Nat
  | [] => [x]
  | y :: ys => if x ≤ y then x :: y :: ys else y :: insertNat x ys

/-- Ascending sort of the year columns, line 95 of excel.py. -/
def sortNat : List Nat → List Nat
  | [] => []
  | x :: xs => insertNat x (sortNat xs)

/-- The merged table before the integer cast, still carrying the
disambiguation names: years ascending, one value per item and year. -/
structure TableQ where
  years : List Nat
  rows : List (String × List ℚ)
deriving DecidableEq

/-- The consolidated table returned to the caller: item name column plus
one integer column per year. -/
structure Table where
  years : List Nat
  rows : List (String × List Int)
deriving DecidableEq

/-- The outer join of line 93 with the column selection of lines 95 and
96 of excel.py, before the integer cast. -/
def mergedQ (fs : List Frame) : TableQ :=
  let years := sortNat (fs.map Frame.year)
  ⟨years, (keysUnion fs).map (fun k => (k, years.map (fun y => mergedValue fs k y)))⟩

/-- The rational-valued consolidation pipeline: the three early returns
of consolidate_pl_sheets followed by the merge. -/
def consolidateQ (g : Grid) : Option TableQ :=
  if nRows g = 0 ∨ nCols g = 0 then none
  else if yearCellsOf g = [] then none
  else if frames g = [] then none
  else some (mergedQ (frames g))

/-- Truncation toward zero, the numpy astype int cast of line 93 of
excel.py applied to a float value. -/
def ratTrunc (q : ℚ) : ℤ := if q < 0 then ⌈q⌉ else ⌊q⌋

/-- The full consolidate_pl_sheets of excel.py: merge, integer cast, and
the suffix stripping of line 99.  No re-aggregation happens after the
stripping; rows keep their identity. -/
def consolidate_pl_sheets (g : Grid) : Option Table :=
  (consolidateQ g).map (fun t =>
    ⟨t.years, t.rows.map (fun p => (stripTempSuffix p.1, p.2.map ratTrunc))⟩)

/-- Position of the first occurrence of a year in the column list, used
to model selection of a pandas column by its label. -/
def idxOfNat (y : Nat) : List Nat → Nat
  | [] => 0
  | x :: xs => if x = y then 0 else idxOfNat y xs + 1

/-- Componentwise sum of two value vectors. -/
def addVec (a b : List Int) : List Int := List.zipWith (· + ·) a b

/-- Add a row into the group carrying its name, or append a new group. -/
def addIntoGroup (n : String) (vs : List Int) :
    List (String × List Int) → List (String × List Int)
  | [] => [(n, vs)]
  | (m, ws) :: rest =>
    if m = n then (m, addVec ws vs) :: rest
    else (m, ws) :: addIntoGroup n vs rest

/-- The groupby sum of line 106 of excel.py: rows sharing a name are
summed componentwise.  Group order is not relied upon below. -/
def groupSum (rows : List (String × List Int)) : List (String × List Int) :=
  rows.foldl (fun acc p => addIntoGroup p.1 p.2 acc) []

/-- A column label of the year-over-year table: the year value column,
its delta column (zōgengaku), or its percentage column (zōgenritsu). -/
inductive YCol where
  | val : Nat → YCol
  | delta : Nat → YCol
  | pct : Nat → YCol
deriving DecidableEq

/-- Columns of df_merged on line 115 of excel.py: the year columns, then
one delta column per year column, then one percentage column per year
column.  The pandas diff and pct_change produce a column for every input
column, the first one holding only NaN. -/
def mergedColsPlan (years : List Nat) : List YCol :=
  years.map YCol.val ++ years.map YCol.delta ++ years.map YCol.pct

/-- The sorted_cols loop of lines 117 to 124 of excel.py: years taken in
ascending order; the delta and percentage columns are appended when
present in df_merged. -/
def sortedColsPlan (years : List Nat) : List YCol :=
  (sortNat years).flatMap (fun y =>
    [YCol.val y]
      ++ (if YCol.delta y ∈ mergedColsPlan years then [YCol.delta y] else [])
      ++ (if YCol.pct y ∈ mergedColsPlan years then [YCol.pct y] else []))

/-- Value of one output column for a row whose year values are vs,
aligned with the years list: the diff and pct_change of lines 109 and
112 of excel.py work positionally on the input column order, and none
models NaN as well as the non-finite result of dividing by zero. -/
def colValue (years : List Nat) (vs : List Int) : YCol → Option ℚ
  | YCol.val y => some ((vs.getD (idxOfNat y years) 0 : ℤ) : ℚ)
  | YCol.delta y =>
    let j := idxOfNat y years
    if j = 0 then none
    else some (((vs.getD j 0 - vs.getD (j - 1) 0 : ℤ) : ℚ))
  | YCol.pct y =>
    let j := idxOfNat y years
    if j = 0 then none
    else if vs.getD (j - 1) 0 = 0 then none
    else some ((((vs.getD j 0 : ℤ) : ℚ) - ((vs.getD (j - 1) 0 : ℤ) : ℚ))
      / ((vs.getD (j - 1) 0 : ℤ) : ℚ) * 100)

/-- The table returned by calculate_yoy: its column plan and one row per
item name with one optional value per column. -/
structure YoyTable where
  cols : List YCol
  rows : List (String × List (Option ℚ))
deriving DecidableEq

/-- The calculate_yoy of excel.py, lines 104 to 127. -/
def calculate_yoy (t : Table) : YoyTable :=
  let cols := sortedColsPlan t.years
  ⟨cols, (groupSum t.rows).map (fun p => (p.1, cols.map (colValue t.years p.2)))⟩

/-- Total amount carried by rows labelled with the sentinel in year y of
a consolidated table. -/
def sonotaTableTotal (t : Table) (y : Nat) : ℤ :=
  ((t.rows.filter (fun p => p.1 = sentinel)).map
    (fun p => p.2.getD (idxOfNat y t.years) 0)).sum

/-- Amounts of the source rows of year y whose stripped name is the
sentinel, read from the extraction range of the block of year y. -/
def sonotaSourceAmounts (g : Grid) (y : Nat) : List ℚ :=
  match (blockDefinitions g).find? (fun b => b.year = y) with
  | none => []
  | some b =>
    ((cleanedRows g b.start b.stop b.col).filter (fun p => p.1 = sentinel)).map
      (fun p => parseAmount p.2)

/-! Facts about the decimal printer used for disambiguation tags. -/

theorem digitChar_isDigit {d : Nat} (h : d < 10) : (digitChar d).isDigit = true := by
  interval_cases d <;> decide

theorem charVal_digitChar {d : Nat} (h : d < 10) : charVal (digitChar d) = d := by
  interval_cases d <;> decide

theorem div10_lt {n fuel : Nat} (hn : n < fuel + 1) (h10 : ¬ n < 10) : n / 10 < fuel := by
  have := Nat.div_lt_self (show 0 < n by omega) (show 1 < 10 by omega)
  omega

theorem natToStrGo_all_digit :
    ∀ fuel n, n < fuel → ∀ c ∈ natToStrGo fuel n, c.isDigit = true := by
  intro fuel
  induction fuel with
  | zero => intro n hn; omega
  | succ fuel ih =>
    intro n hn c hc
    by_cases h10 : n < 10
    · simp only [natToStrGo, if_pos h10, List.mem_singleton] at hc
      subst hc; exact digitChar_isDigit h10
    · simp only [natToStrGo, if_neg h10, List.mem_append, List.mem_singleton] at hc
      rcases hc with hc | hc
      · exact ih (n / 10) (div10_lt hn h10) c hc
      · subst hc; exact digitChar_isDigit (Nat.mod_lt n (by omega))

theorem natToStrGo_ne_nil :
    ∀ fuel n, n < fuel → natToStrGo fuel n ≠ [] := by
  intro fuel
  induction fuel with
  | zero => intro n hn; omega
  | succ fuel _ =>
    intro n _ h
    by_cases h10 : n < 10
    · simp [natToStrGo, if_pos h10] at h
    · simp [natToStrGo, if_neg h10] at h

theorem foldl_digits (l : List Char) :
    ∀ a : Nat, l.foldl (fun x c => 10 * x + charVal c) a =
      a * 10 ^ l.length + digitsToNat l := by
  induction l with
  | nil => intro a; simp [digitsToNat]
  | cons c l ih =>
    intro a
    have h1 := ih (10 * a + charVal c)
    have h2 := ih (10 * 0 + charVal c)
    simp only [digitsToNat, List.foldl_cons, List.length_cons] at h1 h2 ⊢
    rw [h1, h2]
    ring

theorem natToStrGo_val :
    ∀ fuel n, n < fuel → digitsToNat (natToStrGo fuel n) = n := by
  intro fuel
  induction fuel with
  | zero => intro n hn; omega
  | succ fuel ih =>
    intro n hn
    by_cases h10 : n < 10
    · simp only [natToStrGo, if_pos h10]
      simp [digitsToNat, charVal_digitChar h10]
    · simp only [natToStrGo, if_neg h10]
      unfold digitsToNat
      rw [List.foldl_append]
      have hrec : (natToStrGo fuel (n / 10)).foldl (fun x c => 10 * x + charVal c) 0 = n / 10 :=
        ih (n / 10) (div10_lt hn h10)
      rw [hrec]
      simp only [List.foldl_cons, List.foldl_nil]
      rw [charVal_digitChar (Nat.mod_lt n (by omega))]
      omega

theorem natToStr_injective {a b : Nat} (h : natToStr a = natToStr b) : a = b := by
  have hdata : natToStrGo (a + 1) a = natToStrGo (b + 1) b := congrArg String.data h
  have ha := natToStrGo_val (a + 1) a (Nat.lt_succ_self a)
  have hb := natToStrGo_val (b + 1) b (Nat.lt_succ_self b)
  rw [hdata] at ha
  omega

/-! Facts about disambiguation tag names and suffix stripping. -/

theorem str_append_data (a b : String) : (a ++ b).data = a.data ++ b.data := rfl

theorem tagName_data (k : Nat) :
    (tagName k).data =
      sentinel.data ++ ['_', 't', 'e', 'm', 'p', '_'] ++ natToStrGo (k + 1) k := by
  show (sentinel ++ "_temp_" ++ natToStr k).data = _
  rw [str_append_data, str_append_data]
  rfl

theorem takeWhile_all_append {p : Char → Bool} {l₁ l₂ : List Char}
    (h : ∀ c ∈ l₁, p c = true) :
    (l₁ ++ l₂).takeWhile p = l₁ ++ l₂.takeWhile p := by
  induction l₁ with
  | nil => simp
  | cons c l ih =>
    have hc := h c (List.mem_cons_self c l)
    simp [List.takeWhile_cons, hc, ih (fun x hx => h x (List.mem_cons_of_mem c hx))]

theorem drop_len_add {α : Type} (l₁ l₂ : List α) (n : Nat) :
    (l₁ ++ l₂).drop (l₁.length + n) = l₂.drop n := by
  induction l₁ with
  | nil => simp
  | cons c l ih => simpa [Nat.succ_add] using ih

theorem stripTempSuffix_append (pre digs : List Char) (hne : digs ≠ [])
    (hdig : ∀ c ∈ digs, c.isDigit = true) :
    stripTempSuffix (String.mk (pre ++ ['_', 't', 'e', 'm', 'p', '_'] ++ digs)) =
      String.mk pre := by
  have hrevdig : ∀ c ∈ digs.reverse, c.isDigit = true := by
    intro c hc; exact hdig c (List.mem_reverse.mp hc)
  have hdata : (String.mk (pre ++ ['_', 't', 'e', 'm', 'p', '_'] ++ digs)).data.reverse =
      digs.reverse ++ (['_', 'p', 'm', 'e', 't', '_'] ++ pre.reverse) := by
    show (pre ++ ['_', 't', 'e', 'm', 'p', '_'] ++ digs).reverse = _
    rw [List.reverse_append, List.reverse_append]
    simp [List.append_assoc]
  have htake : ((String.mk (pre ++ ['_', 't', 'e', 'm', 'p', '_'] ++ digs)).data.reverse.takeWhile
      Char.isDigit) = digs.reverse := by
    rw [hdata, takeWhile_all_append hrevdig]
    simp [List.takeWhile_cons]
  have hempty : (digs.reverse).isEmpty = false := by
    cases h : digs.reverse with
    | nil => exact absurd (by simpa using congrArg List.reverse h) hne
    | cons a l => rfl
  have hdrop : (String.mk (pre ++ ['_', 't', 'e', 'm', 'p', '_'] ++ digs)).data.reverse.drop
      (digs.reverse.length) = ['_', 'p', 'm', 'e', 't', '_'] ++ pre.reverse := by
    rw [hdata, List.drop_left]
  have htak6 : ((['_', 'p', 'm', 'e', 't', '_'] ++ pre.reverse).take 6) =
      ['_', 'p', 'm', 'e', 't', '_'] := by
    have := List.take_left (['_', 'p', 'm', 'e', 't', '_'] : List Char) pre.reverse
    simpa using this
  have hdrop6 : (String.mk (pre ++ ['_', 't', 'e', 'm', 'p', '_'] ++ digs)).data.reverse.drop
      (digs.reverse.length + 6) = pre.reverse := by
    rw [hdata, ← List.append_assoc]
    have h6 : digs.reverse.length + 6 =
        (digs.reverse ++ ['_', 'p', 'm', 'e', 't', '_']).length + 0 := by simp
    rw [h6, drop_len_add, List.drop_zero]
  unfold stripTempSuffix
  rw [htake, hempty, hdrop, htak6, hdrop6]
  simp

theorem stripTempSuffix_tagName (k : Nat) : stripTempSuffix (tagName k) = sentinel := by
  have hdig : ∀ c ∈ natToStrGo (k + 1) k, c.isDigit = true :=
    natToStrGo_all_digit (k + 1) k (Nat.lt_succ_self k)
  have hne : natToStrGo (k + 1) k ≠ [] := natToStrGo_ne_nil (k + 1) k (Nat.lt_succ_self k)
  have h : tagName k = String.mk (sentinel.data ++ ['_', 't', 'e', 'm', 'p', '_'] ++
      natToStrGo (k + 1) k) := by
    have := tagName_data k
    cases he : tagName k with
    | mk d =>
      rw [he] at this; simp at this; rw [this]
      simp
  rw [h, stripTempSuffix_append sentinel.data (natToStrGo (k + 1) k) hne hdig]

theorem tagName_ne_sentinel (k : Nat) : tagName k ≠ sentinel := by
  intro h
  have hd := congrArg String.data h
  rw [tagName_data] at hd
  have hlen := congrArg List.length hd
  have hne : natToStrGo (k + 1) k ≠ [] := natToStrGo_ne_nil (k + 1) k (Nat.lt_succ_self k)
  have hpos : 0 < (natToStrGo (k + 1) k).length := List.length_pos.mpr hne
  simp only [List.length_append] at hlen
  omega

theorem tagName_injective {a b : Nat} (h : tagName a = tagName b) : a = b := by
  have hd := congrArg String.data h
  rw [tagName_data, tagName_data] at hd
  rw [List.append_assoc, List.append_assoc] at hd
  have h1 := List.append_cancel_left hd
  have h2 := List.append_cancel_left h1
  exact natToStr_injective (congrArg String.mk h2)

/-! Facts about the year-header scan and the duplicate-year filter. -/

theorem wsChar_not_digit {c : Char} (h : wsChar c = true) : c.isDigit = false := by
  unfold wsChar at h
  simp only [Bool.or_eq_true, decide_eq_true_eq] at h
  rcases h with ((((h | h) | h) | h) | h) | h <;> subst h <;> decide

theorem digit_not_ws {c : Char} (h : c.isDigit = true) : wsChar c = false := by
  cases hw : wsChar c with
  | false => rfl
  | true => rw [wsChar_not_digit hw] at h; cases h

theorem dropWhile_all_append {p : Char → Bool} {l₁ : List Char} (l₂ : List Char)
    (h : ∀ c ∈ l₁, p c = true) :
    (l₁ ++ l₂).dropWhile p = l₂.dropWhile p := by
  induction l₁ with
  | nil => simp
  | cons c l ih =>
    have hc := h c (List.mem_cons_self c l)
    simp [List.dropWhile_cons, hc, ih (fun x hx => h x (List.mem_cons_of_mem c hx))]

theorem firstPerYear_filter_mem (y : Nat) :
    ∀ (l : List YearCell) (seen : List Nat), y ∈ seen →
      (firstPerYear seen l).filter (fun c => c.year = y) = [] := by
  intro l
  induction l with
  | nil => intro seen _; rfl
  | cons c cs ih =>
    intro seen hy
    by_cases hc : c.year ∈ seen
    · simp only [firstPerYear, if_pos hc]
      exact ih seen hy
    · have hcy : ¬ c.year = y := fun h => hc (h ▸ hy)
      simp only [firstPerYear, if_neg hc, List.filter_cons, decide_eq_true_eq]
      rw [if_neg hcy]
      exact ih (c.year :: seen) (List.mem_cons_of_mem _ hy)

theorem firstPerYear_filter (y : Nat) :
    ∀ (l : List YearCell) (seen : List Nat), y ∉ seen →
      (firstPerYear seen l).filter (fun c => c.year = y) =
        (l.filter (fun c => c.year = y)).take 1 := by
  intro l
  induction l with
  | nil => intro seen _; rfl
  | cons c cs ih =>
    intro seen hy
    by_cases hc : c.year ∈ seen
    · have hcy : ¬ c.year = y := fun h => hy (h ▸ hc)
      simp only [firstPerYear, if_pos hc, List.filter_cons, decide_eq_true_eq]
      rw [if_neg hcy]
      exact ih seen hy
    · by_cases hcy : c.year = y
      · simp only [firstPerYear, if_neg hc, List.filter_cons, decide_eq_true_eq]
        rw [if_pos hcy, if_pos hcy]
        have : (firstPerYear (c.year :: seen) cs).filter (fun d => d.year = y) = [] :=
          firstPerYear_filter_mem y cs (c.year :: seen) (by rw [hcy]; exact List.mem_cons_self y seen)
        rw [this]
        simp
      · simp only [firstPerYear, if_neg hc, List.filter_cons, decide_eq_true_eq]
        rw [if_neg hcy, if_neg hcy]
        exact ih (c.year :: seen) (by
          intro h
          rcases List.mem_cons.mp h with h | h
          · exact hcy h.symm
          · exact hy h)

theorem firstPerYear_not_seen :
    ∀ (l : List YearCell) (seen : List Nat) (c : YearCell),
      c ∈ firstPerYear seen l → c.year ∉ seen := by
  intro l
  induction l with
  | nil => intro seen c hc; cases hc
  | cons d cs ih =>
    intro seen c hc
    by_cases hd : d.year ∈ seen
    · simp only [firstPerYear, if_pos hd] at hc
      exact ih seen c hc
    · simp only [firstPerYear, if_neg hd] at hc
      rcases List.mem_cons.mp hc with h | h
      · subst h; exact hd
      · intro hmem
        exact ih (d.year :: seen) c h (List.mem_cons_of_mem _ hmem)

theorem firstPerYear_years_nodup :
    ∀ (l : List YearCell) (seen : List Nat),
      ((firstPerYear seen l).map YearCell.year).Nodup := by
  intro l
  induction l with
  | nil => intro seen; simp [firstPerYear]
  | cons d cs ih =>
    intro seen
    by_cases hd : d.year ∈ seen
    · simp only [firstPerYear, if_pos hd]; exact ih seen
    · simp only [firstPerYear, if_neg hd, List.map_cons, List.nodup_cons]
      refine ⟨?_, ih (d.year :: seen)⟩
      intro hmem
      rcases List.mem_map.mp hmem with ⟨c, hc, hcy⟩
      exact firstPerYear_not_seen cs (d.year :: seen) c hc (hcy ▸ List.mem_cons_self _ _)

/-- Strict row-major scan order on year cells. -/
def cellLt (a b : YearCell) : Prop :=
  a.row < b.row ∨ (a.row = b.row ∧ a.col < b.col)

theorem scanRowFrom_shape :
    ∀ (row : List Cell) (r c : Nat) (yc : YearCell), yc ∈ scanRowFrom r c row →
      yc.row = r ∧ c ≤ yc.col := by
  intro row
  induction row with
  | nil => intro r c yc h; cases h
  | cons cell rest ih =>
    intro r c yc h
    cases cell with
    | none =>
      simp only [scanRowFrom] at h
      have := ih r (c + 1) yc h
      exact ⟨this.1, by omega⟩
    | some s =>
      simp only [scanRowFrom, List.mem_append] at h
      rcases h with h | h
      · by_cases hm : yearPatMatch s = true
        · rw [if_pos hm] at h
          rcases List.mem_singleton.mp h with rfl
          exact ⟨rfl, Nat.le_refl c⟩
        · rw [if_neg hm] at h; cases h
      · have := ih r (c + 1) yc h
        exact ⟨this.1, by omega⟩

theorem scanRowFrom_pairwise :
    ∀ (row : List Cell) (r c : Nat), List.Pairwise cellLt (scanRowFrom r c row) := by
  intro row
  induction row with
  | nil => intro r c; exact List.Pairwise.nil
  | cons cell rest ih =>
    intro r c
    cases cell with
    | none => simp only [scanRowFrom]; exact ih r (c + 1)
    | some s =>
      simp only [scanRowFrom]
      rw [List.pairwise_append]
      refine ⟨?_, ih r (c + 1), ?_⟩
      · by_cases hm : yearPatMatch s = true
        · rw [if_pos hm]; simp
        · rw [if_neg hm]; exact List.Pairwise.nil
      · intro a ha b hb
        have hb' := scanRowFrom_shape rest r (c + 1) b hb
        by_cases hm : yearPatMatch s = true
        · rw [if_pos hm] at ha
          rcases List.mem_singleton.mp ha with rfl
          right
          refine ⟨hb'.1.symm, ?_⟩
          show c < b.col
          omega
        · rw [if_neg hm] at ha; cases ha

theorem scanRows_row_ge :
    ∀ (rows : List (List Cell)) (r : Nat) (yc : YearCell), yc ∈ scanRows r rows →
      r ≤ yc.row := by
  intro rows
  induction rows with
  | nil => intro r yc h; cases h
  | cons row rest ih =>
    intro r yc h
    simp only [scanRows, List.mem_append] at h
    rcases h with h | h
    · exact (scanRowFrom_shape row r 0 yc h).1 ▸ Nat.le_refl r
    · have := ih (r + 1) yc h; omega

theorem scanRows_pairwise :
    ∀ (rows : List (List Cell)) (r : Nat), List.Pairwise cellLt (scanRows r rows) := by
  intro rows
  induction rows with
  | nil => intro r; exact List.Pairwise.nil
  | cons row rest ih =>
    intro r
    simp only [scanRows]
    rw [List.pairwise_append]
    refine ⟨scanRowFrom_pairwise row r 0, ih (r + 1), ?_⟩
    intro a ha b hb
    have ha' := (scanRowFrom_shape row r 0 a ha).1
    have hb' := scanRows_row_ge rest (r + 1) b hb
    left
    omega

theorem yearCells_pairwise (g : Grid) : List.Pairwise cellLt (yearCellsOf g) :=
  scanRows_pairwise g 0

theorem insertByRow_sorted {x : YearCell} {l : List YearCell}
    (h : List.Pairwise (fun a b : YearCell => a.row ≤ b.row) (x :: l)) :
    insertByRow x l = x :: l := by
  cases l with
  | nil => rfl
  | cons y ys =>
    have hxy : x.row ≤ y.row := (List.pairwise_cons.mp h).1 y (List.mem_cons_self y ys)
    simp [insertByRow, if_pos hxy]

theorem sortByRow_sorted :
    ∀ l : List YearCell, List.Pairwise (fun a b : YearCell => a.row ≤ b.row) l →
      sortByRow l = l := by
  intro l
  induction l with
  | nil => intro _; rfl
  | cons x xs ih =>
    intro h
    have htail := (List.pairwise_cons.mp h).2
    simp only [sortByRow]
    rw [ih htail]
    exact insertByRow_sorted h

theorem sortByRow_yearCells (g : Grid) : sortByRow (yearCellsOf g) = yearCellsOf g := by
  apply sortByRow_sorted
  exact (yearCells_pairwise g).imp (fun h => by
    rcases h with h | ⟨h, _⟩
    · omega
    · omega)

theorem trim_decomp (l : List Char) :
    l.dropWhile wsChar =
      trimList l ++ ((l.dropWhile wsChar).reverse.takeWhile wsChar).reverse := by
  have h := List.takeWhile_append_dropWhile (p := wsChar) (l := (l.dropWhile wsChar).reverse)
  have h2 := congrArg List.reverse h
  rw [List.reverse_append, List.reverse_reverse] at h2
  exact h2.symm

theorem trim_decomp_ws (l : List Char) :
    ∀ c ∈ ((l.dropWhile wsChar).reverse.takeWhile wsChar).reverse, wsChar c = true := by
  intro c hc
  exact List.mem_takeWhile_imp (List.mem_reverse.mp hc)

theorem yearPatList_iff (l : List Char) :
    yearPatList l = true ↔
      ∃ a b, trimList l = ['2', '0', a, b] ∧ a.isDigit = true ∧ b.isDigit = true := by
  constructor
  · intro h
    unfold yearPatList at h
    split at h
    case _ a b rest heq =>
      simp only [Bool.and_eq_true] at h
      obtain ⟨⟨ha, hb⟩, hrest⟩ := h
      refine ⟨a, b, ?_, ha, hb⟩
      unfold trimList
      rw [heq]
      have hrev : ('2' :: '0' :: a :: b :: rest : List Char).reverse =
          rest.reverse ++ [b, a, '0', '2'] := by simp
      rw [hrev]
      rw [dropWhile_all_append [b, a, '0', '2']
        (fun c hc => (List.all_eq_true.mp hrest) c (List.mem_reverse.mp hc))]
      rw [List.dropWhile_cons]
      rw [digit_not_ws hb]
      simp
    case _ => cases h
  · rintro ⟨a, b, htrim, ha, hb⟩
    have hsplit := trim_decomp l
    rw [htrim] at hsplit
    have hws := trim_decomp_ws l
    unfold yearPatList
    rw [hsplit]
    simp only [List.cons_append, List.nil_append]
    simp only [Bool.and_eq_true]
    exact ⟨⟨ha, hb⟩, List.all_eq_true.mpr (fun c hc => hws c hc)⟩

theorem mem_scanRowFrom_iff (row : List Cell) :
    ∀ (r c : Nat) (yc : YearCell),
      yc ∈ scanRowFrom r c row ↔
        ∃ j s, row[j]? = some (some s) ∧ yearPatMatch s = true ∧
          yc = ⟨r, c + j, yearNat s⟩ := by
  induction row with
  | nil =>
    intro r c yc
    simp [scanRowFrom]
  | cons cell rest ih =>
    intro r c yc
    cases cell with
    | none =>
      simp only [scanRowFrom]
      rw [ih r (c + 1) yc]
      constructor
      · rintro ⟨j, s, hj, hm, he⟩
        exact ⟨j + 1, s, by simpa using hj, hm, by rw [he]; congr 1; omega⟩
      · rintro ⟨j, s, hj, hm, he⟩
        cases j with
        | zero => simp at hj
        | succ j =>
          refine ⟨j, s, by simpa using hj, hm, by rw [he]; congr 1; omega⟩
    | some t =>
      simp only [scanRowFrom, List.mem_append]
      constructor
      · intro h
        rcases h with h | h
        · by_cases hm : yearPatMatch t = true
          · rw [if_pos hm] at h
            rcases List.mem_singleton.mp h with rfl
            exact ⟨0, t, by simp, hm, by congr 1⟩
          · rw [if_neg hm] at h; cases h
        · rcases (ih r (c + 1) yc).mp h with ⟨j, s, hj, hm, he⟩
          exact ⟨j + 1, s, by simpa using hj, hm, by rw [he]; congr 1; omega⟩
      · rintro ⟨j, s, hj, hm, he⟩
        cases j with
        | zero =>
          left
          simp only [List.getElem?_cons_zero, Option.some_inj] at hj
          rw [if_pos (hj ▸ hm)]
          rw [he]
          simp [hj]
        | succ j =>
          right
          exact (ih r (c + 1) yc).mpr ⟨j, s, by simpa using hj, hm, by rw [he]; congr 1; omega⟩

theorem mem_scanRows_iff (rows : List (List Cell)) :
    ∀ (r : Nat) (yc : YearCell),
      yc ∈ scanRows r rows ↔
        ∃ i row, rows[i]? = some row ∧ yc ∈ scanRowFrom (r + i) 0 row := by
  induction rows with
  | nil => intro r yc; simp [scanRows]
  | cons row rest ih =>
    intro r yc
    simp only [scanRows, List.mem_append]
    constructor
    · intro h
      rcases h with h | h
      · exact ⟨0, row, by simp, by simpa using h⟩
      · rcases (ih (r + 1) yc).mp h with ⟨i, row', hi, hmem⟩
        refine ⟨i + 1, row', by simpa using hi, ?_⟩
        have : r + (i + 1) = r + 1 + i := by omega
        rw [this]
        exact hmem
    · rintro ⟨i, row', hi, hmem⟩
      cases i with
      | zero =>
        left
        simp only [List.getElem?_cons_zero, Option.some_inj] at hi
        subst hi
        simpa using hmem
      | succ i =>
        right
        refine (ih (r + 1) yc).mpr ⟨i, row', by simpa using hi, ?_⟩
        have : r + 1 + i = r + (i + 1) := by omega
        rw [this]
        exact hmem

theorem getCell_eq_some_iff (g : Grid) (r c : Nat) (s : String) :
    getCell g r c = some s ↔
      ∃ row, g[r]? = some row ∧ row[c]? = some (some s) := by
  unfold getCell
  constructor
  · intro h
    cases hg : g[r]? with
    | none => rw [hg] at h; simp at h
    | some row =>
      rw [hg] at h
      simp only [Option.some_bind] at h
      refine ⟨row, rfl, ?_⟩
      cases hc : row[c]? with
      | none => rw [hc] at h; simp [Option.join] at h
      | some cell =>
        rw [hc] at h
        cases cell with
        | none => simp [Option.join] at h
        | some t =>
          simp [Option.join] at h
          rw [h]
  · rintro ⟨row, hr, hc⟩
    rw [hr]
    show (row[c]?.bind fun a => a) = some s
    rw [hc]
    rfl

theorem mem_yearCells_iff (g : Grid) (r c y : Nat) :
    (⟨r, c, y⟩ : YearCell) ∈ yearCellsOf g ↔
      ∃ s, getCell g r c = some s ∧ yearPatMatch s = true ∧ y = yearNat s := by
  unfold yearCellsOf
  rw [mem_scanRows_iff g 0]
  constructor
  · rintro ⟨i, row, hi, hmem⟩
    rw [mem_scanRowFrom_iff row (0 + i) 0 _] at hmem
    rcases hmem with ⟨j, s, hj, hm, he⟩
    rw [YearCell.mk.injEq] at he
    obtain ⟨hr, hc, hy⟩ := he
    refine ⟨s, ?_, hm, hy⟩
    rw [getCell_eq_some_iff]
    refine ⟨row, ?_, ?_⟩
    · rw [show r = i by omega]; exact hi
    · rw [show c = j by omega]; exact hj
  · rintro ⟨s, hcell, hm, hy⟩
    rcases (getCell_eq_some_iff g r c s).mp hcell with ⟨row, hr, hc⟩
    refine ⟨r, row, hr, ?_⟩
    rw [mem_scanRowFrom_iff row (0 + r) 0 _]
    refine ⟨c, s, hc, hm, ?_⟩
    rw [hy, YearCell.mk.injEq]
    omega

theorem digitsToNat_year (a b : Char) :
    digitsToNat ['2', '0', a, b] = 2000 + 10 * charVal a + charVal b := by
  show (10 * (10 * (10 * (10 * 0 + charVal '2') + charVal '0') + charVal a) + charVal b : Nat) = _
  have h2 : charVal '2' = 2 := rfl
  have h0 : charVal '0' = 0 := rfl
  rw [h2, h0]
  omega

theorem charVal_lt_ten {c : Char} (h : c.isDigit = true) : charVal c < 10 := by
  simp only [Char.isDigit, Bool.and_eq_true, decide_eq_true_eq] at h
  obtain ⟨h1, h2⟩ := h
  unfold charVal Char.toNat
  have hle : c.val.toNat ≤ (57 : UInt32).toNat := h2
  have h57 : (57 : UInt32).toNat = 57 := rfl
  omega

/-! Claim C4: characterization of the year-header match. -/

/-- C4: the year-header search treats a cell as a year header iff its string
form, after trimming surrounding whitespace, consists of exactly 4 digits
beginning with 2 0 (so the year lies in 2000 to 2099); missing cells and
partially numeric strings never become marks, and a mark's year value is the
integer value of the trimmed digit string. -/
theorem c4_year_header_iff (g : Grid) (r c y : Nat) :
    (⟨r, c, y⟩ : YearCell) ∈ yearCellsOf g ↔
      ∃ s a b, getCell g r c = some s ∧ (pyTrim s).data = ['2', '0', a, b] ∧
        a.isDigit = true ∧ b.isDigit = true ∧
        y = digitsToNat (pyTrim s).data ∧ 2000 ≤ y ∧ y < 2100 := by
  rw [mem_yearCells_iff]
  constructor
  · rintro ⟨s, hcell, hm, hy⟩
    rcases (yearPatList_iff s.data).mp hm with ⟨a, b, htrim, ha, hb⟩
    have hdata : (pyTrim s).data = trimList s.data := rfl
    have hyy : y = digitsToNat (pyTrim s).data := by
      rw [hdata]; exact hy
    refine ⟨s, a, b, hcell, by rw [hdata, htrim], ha, hb, hyy, ?_, ?_⟩
    · rw [hyy, hdata, htrim, digitsToNat_year]; omega
    · rw [hyy, hdata, htrim, digitsToNat_year]
      have hca := charVal_lt_ten ha
      have hcb := charVal_lt_ten hb
      omega
  · rintro ⟨s, a, b, hcell, htrim, ha, hb, hy, -, -⟩
    have hdata : (pyTrim s).data = trimList s.data := rfl
    refine ⟨s, hcell, ?_, by rw [hy, hdata]; rfl⟩
    exact (yearPatList_iff s.data).mpr ⟨a, b, by rw [← hdata]; exact htrim, ha, hb⟩

/-! Claim C5: duplicate year values keep only the first mark in scan order. -/

theorem blockDefsAux_years (numRows : Nat) :
    ∀ l : List YearCell,
      (blockDefsAux numRows l).map BlockDef.year = l.map YearCell.year := by
  intro l
  induction l with
  | nil => rfl
  | cons c rest ih => simp [blockDefsAux, ih]

theorem blockDefsAux_filter_map (numRows y : Nat) :
    ∀ l : List YearCell,
      ((blockDefsAux numRows l).filter (fun b => b.year = y)).map
          (fun b => (b.col, b.start)) =
        (l.filter (fun c => c.year = y)).map (fun c => (c.col, c.row + 1)) := by
  intro l
  induction l with
  | nil => rfl
  | cons c rest ih =>
    by_cases hc : c.year = y
    · simp only [blockDefsAux, List.filter_cons, decide_eq_true_eq]
      rw [if_pos hc, if_pos hc]
      simp only [List.map_cons]
      rw [ih]
    · simp only [blockDefsAux, List.filter_cons, decide_eq_true_eq]
      rw [if_neg hc, if_neg hc]
      exact ih

/-- C5: when a year value appears in several matching cells, only the first
mark in row-major scan order is retained: the sort by row leaves the scan
order unchanged, the duplicate filter keeps the first cell of each year, each
year yields at most one block definition, and that block reads its column and
start row from the first matching mark. -/
theorem c5_duplicate_years (g : Grid) (y : Nat) :
    uniqueYearCells g = firstPerYear [] (yearCellsOf g) ∧
    (uniqueYearCells g).filter (fun c => c.year = y) =
      ((yearCellsOf g).filter (fun c => c.year = y)).take 1 ∧
    ((blockDefinitions g).map BlockDef.year).Nodup ∧
    ((blockDefinitions g).filter (fun b => b.year = y)).map (fun b => (b.col, b.start)) =
      (((yearCellsOf g).filter (fun c => c.year = y)).take 1).map
        (fun c => (c.col, c.row + 1)) := by
  have h1 : uniqueYearCells g = firstPerYear [] (yearCellsOf g) := by
    unfold uniqueYearCells
    rw [sortByRow_yearCells]
  have h2 : (uniqueYearCells g).filter (fun c => c.year = y) =
      ((yearCellsOf g).filter (fun c => c.year = y)).take 1 := by
    rw [h1]
    exact firstPerYear_filter y (yearCellsOf g) [] (by simp)
  refine ⟨h1, h2, ?_, ?_⟩
  · unfold blockDefinitions
    rw [blockDefsAux_years]
    rw [show uniqueYearCells g = firstPerYear [] (sortByRow (yearCellsOf g)) from rfl]
    exact firstPerYear_years_nodup (sortByRow (yearCellsOf g)) []
  · unfold blockDefinitions
    rw [blockDefsAux_filter_map]
    rw [← h2]

/-! Claim C6: dedup and tagging inside one extraction pass. -/

theorem dedupRows_sentinel :
    ∀ (rows : List (String × Cell)) (seen : List String),
      (dedupRows seen rows).filter (fun p => p.1 = sentinel) =
        rows.filter (fun p => p.1 = sentinel) := by
  intro rows
  induction rows with
  | nil => intro seen; rfl
  | cons p rest ih =>
    intro seen
    obtain ⟨n, v⟩ := p
    by_cases hs : n = sentinel
    · simp only [dedupRows, if_pos hs, List.filter_cons, decide_eq_true_eq]
      rw [ih seen]
    · by_cases hseen : n ∈ seen
      · simp only [dedupRows, if_neg hs, if_pos hseen, List.filter_cons, decide_eq_true_eq]
        exact ih seen
      · simp only [dedupRows, if_neg hs, if_neg hseen, List.filter_cons, decide_eq_true_eq]
        exact ih (n :: seen)

theorem dedupRows_filter_mem (n : String) (hn : n ≠ sentinel) :
    ∀ (rows : List (String × Cell)) (seen : List String), n ∈ seen →
      (dedupRows seen rows).filter (fun p => p.1 = n) = [] := by
  intro rows
  induction rows with
  | nil => intro seen _; rfl
  | cons p rest ih =>
    intro seen hmem
    obtain ⟨m, v⟩ := p
    by_cases hs : m = sentinel
    · have hm : ¬ m = n := fun h => hn (h ▸ hs)
      simp only [dedupRows, if_pos hs, List.filter_cons, decide_eq_true_eq]
      rw [if_neg hm]
      exact ih seen hmem
    · by_cases hseen : m ∈ seen
      · simp only [dedupRows, if_neg hs, if_pos hseen]
        exact ih seen hmem
      · simp only [dedupRows, if_neg hs, if_neg hseen, List.filter_cons, decide_eq_true_eq]
        have hm : ¬ m = n := fun h => hseen (h ▸ hmem)
        rw [if_neg hm]
        exact ih (m :: seen) (List.mem_cons_of_mem _ hmem)

theorem dedupRows_filter_take (n : String) (hn : n ≠ sentinel) :
    ∀ (rows : List (String × Cell)) (seen : List String), n ∉ seen →
      (dedupRows seen rows).filter (fun p => p.1 = n) =
        (rows.filter (fun p => p.1 = n)).take 1 := by
  intro rows
  induction rows with
  | nil => intro seen _; rfl
  | cons p rest ih =>
    intro seen hmem
    obtain ⟨m, v⟩ := p
    by_cases hmn : m = n
    · subst hmn
      have htail := dedupRows_filter_mem m hn rest (m :: seen) (List.mem_cons_self m seen)
      simp only [dedupRows, if_neg hn, if_neg hmem]
      simp [List.filter_cons, htail]
    · by_cases hs : m = sentinel
      · simp only [dedupRows, if_pos hs, List.filter_cons, decide_eq_true_eq]
        rw [if_neg hmn, if_neg hmn]
        exact ih seen hmem
      · by_cases hseen : m ∈ seen
        · simp only [dedupRows, if_neg hs, if_pos hseen, List.filter_cons, decide_eq_true_eq]
          rw [if_neg hmn]
          exact ih seen hmem
        · simp only [dedupRows, if_neg hs, if_neg hseen, List.filter_cons, decide_eq_true_eq]
          rw [if_neg hmn, if_neg hmn]
          exact ih (m :: seen) (by
            intro h
            rcases List.mem_cons.mp h with h | h
            · exact hmn h.symm
            · exact hmem h)

theorem dedupRows_subset :
    ∀ (rows : List (String × Cell)) (seen : List String) (p : String × Cell),
      p ∈ dedupRows seen rows → p ∈ rows := by
  intro rows
  induction rows with
  | nil => intro seen p hp; cases hp
  | cons q rest ih =>
    intro seen p hp
    obtain ⟨m, v⟩ := q
    by_cases hs : m = sentinel
    · simp only [dedupRows, if_pos hs] at hp
      rcases List.mem_cons.mp hp with h | h
      · exact h ▸ List.mem_cons_self _ _
      · exact List.mem_cons_of_mem _ (ih seen p h)
    · by_cases hseen : m ∈ seen
      · simp only [dedupRows, if_neg hs, if_pos hseen] at hp
        exact List.mem_cons_of_mem _ (ih seen p hp)
      · simp only [dedupRows, if_neg hs, if_neg hseen] at hp
        rcases List.mem_cons.mp hp with h | h
        · exact h ▸ List.mem_cons_self _ _
        · exact List.mem_cons_of_mem _ (ih (m :: seen) p h)

theorem tagName_ne_of_plain {n : String} (hn : n ≠ sentinel)
    (hnn : stripTempSuffix n = n) (k : Nat) : tagName k ≠ n := by
  intro h
  rw [← h] at hnn
  rw [stripTempSuffix_tagName] at hnn
  exact hn (by rw [← h, hnn])

theorem tagSonota_filter_plain (n : String) (hn : n ≠ sentinel)
    (hnn : stripTempSuffix n = n) :
    ∀ (l : List (String × ℚ)) (k : Nat),
      (tagSonota k l).filter (fun p => p.1 = n) = l.filter (fun p => p.1 = n) := by
  intro l
  induction l with
  | nil => intro k; rfl
  | cons p rest ih =>
    intro k
    obtain ⟨m, q⟩ := p
    by_cases hs : m = sentinel
    · have hm : ¬ m = n := fun h => hn (h ▸ hs)
      simp only [tagSonota, if_pos hs, List.filter_cons, decide_eq_true_eq]
      rw [if_neg (tagName_ne_of_plain hn hnn k), if_neg hm]
      exact ih (k + 1)
    · simp only [tagSonota, if_neg hs, List.filter_cons, decide_eq_true_eq]
      by_cases hmn : m = n
      · rw [if_pos hmn, if_pos hmn, ih k]
      · rw [if_neg hmn, if_neg hmn]
        exact ih k

theorem tagSonota_filter_sentinel :
    ∀ (l : List (String × ℚ)) (k : Nat),
      (∀ p ∈ l, p.1 ≠ sentinel → stripTempSuffix p.1 = p.1) →
      (tagSonota k l).filter (fun p => stripTempSuffix p.1 = sentinel) =
        ((l.filter (fun p => p.1 = sentinel)).enumFrom k).map
          (fun ip => (tagName ip.1, ip.2.2)) := by
  intro l
  induction l with
  | nil => intro k _; rfl
  | cons p rest ih =>
    intro k hno
    obtain ⟨m, q⟩ := p
    by_cases hs : m = sentinel
    · simp only [tagSonota, if_pos hs, List.filter_cons, decide_eq_true_eq]
      rw [if_pos (stripTempSuffix_tagName k)]
      rw [show ∀ (p : String × ℚ) (l : List (String × ℚ)) (i : Nat),
        (p :: l).enumFrom i = (i, p) :: l.enumFrom (i + 1) from fun _ _ _ => rfl]
      simp only [List.map_cons]
      rw [ih (k + 1) (fun p hp => hno p (List.mem_cons_of_mem _ hp))]
    · have hplain : stripTempSuffix m = m :=
        hno (m, q) (List.mem_cons_self _ _) hs
      simp only [tagSonota, if_neg hs, List.filter_cons, decide_eq_true_eq]
      rw [if_neg (fun h : stripTempSuffix m = sentinel => hs (hplain ▸ h))]
      exact ih k (fun p hp => hno p (List.mem_cons_of_mem _ hp))

theorem parsed_hno (rows : List (String × Cell))
    (hno : ∀ p ∈ rows, p.1 ≠ sentinel → stripTempSuffix p.1 = p.1) :
    ∀ p ∈ (dedupRows [] rows).map (fun p => (p.1, parseAmount p.2)),
      p.1 ≠ sentinel → stripTempSuffix p.1 = p.1 := by
  intro p hp hps
  rcases List.mem_map.mp hp with ⟨q, hq, hqe⟩
  have hq1 : q.1 = p.1 := congrArg Prod.fst hqe
  have := hno q (dedupRows_subset rows [] q hq) (by rw [hq1]; exact hps)
  rw [hq1] at this
  exact this

theorem processRows_plain (rows : List (String × Cell)) (n : String)
    (hn : n ≠ sentinel) (hnn : stripTempSuffix n = n) :
    (processRows rows).filter (fun p => p.1 = n) =
      ((rows.filter (fun p => p.1 = n)).take 1).map (fun p => (p.1, parseAmount p.2)) := by
  unfold processRows
  rw [tagSonota_filter_plain n hn hnn]
  rw [List.filter_map]
  have hpred : ((fun p : String × ℚ => decide (p.1 = n)) ∘
      (fun p : String × Cell => (p.1, parseAmount p.2))) =
      (fun p : String × Cell => decide (p.1 = n)) := rfl
  rw [hpred]
  rw [dedupRows_filter_take n hn rows [] (by simp)]

theorem processRows_sentinel (rows : List (String × Cell))
    (hno : ∀ p ∈ rows, p.1 ≠ sentinel → stripTempSuffix p.1 = p.1) :
    (processRows rows).filter (fun p => stripTempSuffix p.1 = sentinel) =
      ((rows.filter (fun p => p.1 = sentinel)).enum).map
        (fun ip => (tagName ip.1, parseAmount ip.2.2)) := by
  unfold processRows
  rw [tagSonota_filter_sentinel _ 0 (parsed_hno rows hno)]
  rw [List.filter_map]
  have hpred : ((fun p : String × ℚ => decide (p.1 = sentinel)) ∘
      (fun p : String × Cell => (p.1, parseAmount p.2))) =
      (fun p : String × Cell => decide (p.1 = sentinel)) := rfl
  rw [hpred]
  rw [dedupRows_sentinel rows []]
  show (((rows.filter (fun p => p.1 = sentinel)).map
      (fun p => (p.1, parseAmount p.2))).enumFrom 0).map (fun ip => (tagName ip.1, ip.2.2)) = _
  rw [show ∀ l : List (String × ℚ), l.enumFrom 0 = l.enum from fun _ => rfl]
  rw [List.enum_map]
  rw [List.map_map]
  rfl

/-- C6: inside one extraction pass, a row whose trimmed name is not the
sentinel survives only at its first occurrence (later rows with that name
are dropped, not summed), while every sentinel row survives, renamed with
its 0-based occurrence index, carrying its own parsed amount.  The pass is
processRows, the composition used by frames; the collision hypothesis says
that no plain item name of the pass already carries a strippable suffix. -/
theorem c6_dedup_and_tag (rows : List (String × Cell)) (n : String)
    (hno : ∀ p ∈ rows, p.1 ≠ sentinel → stripTempSuffix p.1 = p.1)
    (hn : n ≠ sentinel) (hnn : stripTempSuffix n = n) :
    (processRows rows).filter (fun p => p.1 = n) =
      ((rows.filter (fun p => p.1 = n)).take 1).map (fun p => (p.1, parseAmount p.2)) ∧
    (processRows rows).filter (fun p => stripTempSuffix p.1 = sentinel) =
      ((rows.filter (fun p => p.1 = sentinel)).enum).map
        (fun ip => (tagName ip.1, parseAmount ip.2.2)) :=
  ⟨processRows_plain rows n hn hnn, processRows_sentinel rows hno⟩

/-! Facts about the ascending year sort and the outer-join merge. -/

theorem mem_insertNat (x a : Nat) : ∀ l : List Nat, a ∈ insertNat x l ↔ a = x ∨ a ∈ l := by
  intro l
  induction l with
  | nil => simp [insertNat]
  | cons y ys ih =>
    by_cases h : x ≤ y
    · simp [insertNat, if_pos h]
    · simp only [insertNat, if_neg h, List.mem_cons, ih]
      tauto

theorem insertNat_sorted (x : Nat) :
    ∀ l : List Nat, List.Pairwise (· ≤ ·) l → List.Pairwise (· ≤ ·) (insertNat x l) := by
  intro l
  induction l with
  | nil => intro _; simp [insertNat]
  | cons y ys ih =>
    intro h
    rcases List.pairwise_cons.mp h with ⟨hy, hys⟩
    by_cases hxy : x ≤ y
    · rw [insertNat, if_pos hxy]
      refine List.pairwise_cons.mpr ⟨?_, h⟩
      intro a ha
      rcases List.mem_cons.mp ha with rfl | ha
      · exact hxy
      · exact le_trans hxy (hy a ha)
    · rw [insertNat, if_neg hxy]
      refine List.pairwise_cons.mpr ⟨?_, ih hys⟩
      intro a ha
      rcases (mem_insertNat x a ys).mp ha with rfl | ha
      · omega
      · exact hy a ha

theorem sortNat_sorted : ∀ l : List Nat, List.Pairwise (· ≤ ·) (sortNat l) := by
  intro l
  induction l with
  | nil => simp [sortNat]
  | cons x xs ih => exact insertNat_sorted x (sortNat xs) ih

theorem insertNat_perm (x : Nat) : ∀ l : List Nat, (insertNat x l).Perm (x :: l) := by
  intro l
  induction l with
  | nil => simp [insertNat]
  | cons y ys ih =>
    by_cases h : x ≤ y
    · rw [insertNat, if_pos h]
    · rw [insertNat, if_neg h]
      exact (List.Perm.cons y ih).trans (List.Perm.swap x y ys)

theorem sortNat_perm : ∀ l : List Nat, (sortNat l).Perm l := by
  intro l
  induction l with
  | nil => exact List.Perm.refl []
  | cons x xs ih =>
    exact (insertNat_perm x (sortNat xs)).trans (List.Perm.cons x ih)

theorem sortNat_strict_of_nodup {l : List Nat} (h : l.Nodup) :
    List.Pairwise (· < ·) (sortNat l) := by
  have hs := sortNat_sorted l
  have hn : (sortNat l).Nodup := ((sortNat_perm l).nodup_iff).mpr h
  have := List.Pairwise.and hs hn
  exact this.imp (fun hab => lt_of_le_of_ne hab.1 hab.2)

theorem sortNat_eq_of_sorted :
    ∀ l : List Nat, List.Pairwise (· ≤ ·) l → sortNat l = l := by
  intro l
  induction l with
  | nil => intro _; rfl
  | cons x xs ih =>
    intro h
    rcases List.pairwise_cons.mp h with ⟨hx, hxs⟩
    rw [sortNat, ih hxs]
    cases xs with
    | nil => rfl
    | cons y ys => rw [insertNat, if_pos (hx y (List.mem_cons_self y ys))]

theorem foldl_union_mem (x : String) :
    ∀ (names acc : List String),
      x ∈ names.foldl (fun acc n => if n ∈ acc then acc else acc ++ [n]) acc ↔
        x ∈ acc ∨ x ∈ names := by
  intro names
  induction names with
  | nil => intro acc; simp
  | cons n rest ih =>
    intro acc
    by_cases hn : n ∈ acc
    · simp only [List.foldl_cons, if_pos hn, ih acc, List.mem_cons]
      constructor
      · rintro (h | h)
        · exact Or.inl h
        · exact Or.inr (Or.inr h)
      · rintro (h | rfl | h)
        · exact Or.inl h
        · exact Or.inl hn
        · exact Or.inr h
    · simp only [List.foldl_cons, if_neg hn, ih (acc ++ [n]), List.mem_append,
        List.mem_singleton, List.mem_cons]
      tauto

theorem foldl_union_nodup :
    ∀ (names acc : List String), acc.Nodup →
      (names.foldl (fun acc n => if n ∈ acc then acc else acc ++ [n]) acc).Nodup := by
  intro names
  induction names with
  | nil => intro acc h; exact h
  | cons n rest ih =>
    intro acc h
    by_cases hn : n ∈ acc
    · rw [List.foldl_cons, if_pos hn]
      exact ih acc h
    · rw [List.foldl_cons, if_neg hn]
      refine ih (acc ++ [n]) ?_
      rw [List.nodup_append]
      refine ⟨h, List.nodup_singleton n, ?_⟩
      intro a ha hb
      rw [List.mem_singleton] at hb
      subst hb
      exact hn ha

theorem keysUnion_nodup (fs : List Frame) : (keysUnion fs).Nodup :=
  foldl_union_nodup _ [] List.nodup_nil

theorem mem_keysUnion (fs : List Frame) (k : String) :
    k ∈ keysUnion fs ↔ ∃ f ∈ fs, k ∈ f.rows.map Prod.fst := by
  unfold keysUnion
  rw [foldl_union_mem]
  simp [List.mem_flatMap]

theorem lookupD_eq_zero (rows : List (String × ℚ)) (k : String)
    (h : k ∉ rows.map Prod.fst) : lookupD rows k = 0 := by
  unfold lookupD
  have : rows.find? (fun p => p.1 = k) = none := by
    rw [List.find?_eq_none]
    intro p hp
    simp only [decide_eq_true_eq]
    intro he
    exact h (List.mem_map.mpr ⟨p, hp, he⟩)
  rw [this]

theorem find?_key_eq {α β : Type} [DecidableEq β] (key : α → β) :
    ∀ (l : List α) (x : α) (y : β), (l.map key).Nodup → x ∈ l → key x = y →
      l.find? (fun a => key a = y) = some x := by
  intro l
  induction l with
  | nil => intro x y _ hx; cases hx
  | cons a rest ih =>
    intro x y hnd hx hkey
    rw [List.map_cons, List.nodup_cons] at hnd
    obtain ⟨hna, hnrest⟩ := hnd
    rcases List.mem_cons.mp hx with rfl | hx
    · exact List.find?_cons_of_pos _ (by simp [hkey])
    · by_cases ha : key a = y
      · exfalso
        apply hna
        rw [ha, ← hkey]
        exact List.mem_map.mpr ⟨x, hx, rfl⟩
      · rw [List.find?_cons_of_neg]
        · exact ih x y hnrest hx hkey
        · simp [ha]

theorem map_filterMap_sublist {α β γ : Type} (f : α → Option β) (gm : β → γ) (hm : α → γ)
    (h : ∀ a b, f a = some b → gm b = hm a) :
    ∀ l : List α, ((l.filterMap f).map gm).Sublist (l.map hm) := by
  intro l
  induction l with
  | nil => simp
  | cons a rest ih =>
    cases hf : f a with
    | none =>
      rw [List.filterMap_cons_none hf, List.map_cons]
      exact ih.cons (hm a)
    | some b =>
      rw [List.filterMap_cons_some hf, List.map_cons, List.map_cons, h a b hf]
      exact ih.cons₂ (hm a)

theorem frames_years_sublist (g : Grid) :
    ((frames g).map Frame.year).Sublist ((blockDefinitions g).map BlockDef.year) := by
  unfold frames
  apply map_filterMap_sublist
  intro b f hf
  by_cases hc : 0 < nCols g ∧ b.col < nCols g
  · rw [if_pos hc] at hf
    by_cases hr : cleanedRows g b.start b.stop b.col = []
    · simp [hr] at hf
    · simp only [hr, if_neg hr] at hf
      cases hf
      rfl
  · rw [if_neg hc] at hf
    cases hf

theorem frames_years_nodup (g : Grid) : ((frames g).map Frame.year).Nodup := by
  refine List.Nodup.sublist (frames_years_sublist g) ?_
  unfold blockDefinitions
  rw [blockDefsAux_years]
  rw [show uniqueYearCells g = firstPerYear [] (sortByRow (yearCellsOf g)) from rfl]
  exact firstPerYear_years_nodup (sortByRow (yearCellsOf g)) []

theorem mergedValue_frame (fs : List Frame) (k : String) (f : Frame)
    (hnd : (fs.map Frame.year).Nodup) (hf : f ∈ fs) :
    mergedValue fs k f.year = lookupD f.rows k := by
  unfold mergedValue
  rw [find?_key_eq Frame.year fs f f.year hnd hf rfl]

theorem mergedValue_zero (fs : List Frame) (k : String) (y : Nat)
    (h : ∀ f ∈ fs, f.year = y → k ∉ f.rows.map Prod.fst) :
    mergedValue fs k y = 0 := by
  unfold mergedValue
  cases hf : fs.find? (fun f => f.year = y) with
  | none => rfl
  | some f =>
    have hmem := List.mem_of_find?_eq_some hf
    have hy := List.find?_some hf
    simp only [decide_eq_true_eq] at hy
    exact lookupD_eq_zero f.rows k (h f hmem hy)

theorem getD_map_idx {α : Type} [Inhabited α] (F : Nat → α) (d : α) :
    ∀ (l : List Nat) (y : Nat), y ∈ l → (l.map F).getD (idxOfNat y l) d = F y := by
  intro l
  induction l with
  | nil => intro y hy; cases hy
  | cons x xs ih =>
    intro y hy
    by_cases hx : x = y
    · rw [idxOfNat, if_pos hx, List.map_cons, List.getD_cons_zero, hx]
    · rw [idxOfNat, if_neg hx, List.map_cons, List.getD_cons_succ]
      exact ih y (by rcases List.mem_cons.mp hy with rfl | hy; exact absurd rfl hx; exact hy)

theorem ratTrunc_zero : ratTrunc 0 = 0 := by
  unfold ratTrunc
  rw [if_neg (by norm_num)]
  exact Int.floor_zero

theorem consolidate_some_eq (g : Grid) (t : Table)
    (h : consolidate_pl_sheets g = some t) :
    t.years = sortNat ((frames g).map Frame.year) ∧
    t.rows = (keysUnion (frames g)).map (fun k =>
      (stripTempSuffix k, ((sortNat ((frames g).map Frame.year)).map
        (fun y => mergedValue (frames g) k y)).map ratTrunc)) := by
  unfold consolidate_pl_sheets consolidateQ at h
  split_ifs at h with h1 h2 h3
  · cases h
  · cases h
  · cases h
  · simp only [Option.map_some', Option.some_inj] at h
    rw [← h]
    constructor
    · rfl
    · show ((keysUnion (frames g)).map (fun k => (k, (sortNat ((frames g).map Frame.year)).map
        (fun y => mergedValue (frames g) k y)))).map
          (fun p => (stripTempSuffix p.1, p.2.map ratTrunc)) = _
      rw [List.map_map]
      rfl

/-! Supporting facts for the sentinel-conservation statement. -/

theorem blockDefs_years_nodup (g : Grid) :
    ((blockDefinitions g).map BlockDef.year).Nodup := by
  unfold blockDefinitions
  rw [blockDefsAux_years]
  rw [show uniqueYearCells g = firstPerYear [] (sortByRow (yearCellsOf g)) from rfl]
  exact firstPerYear_years_nodup (sortByRow (yearCellsOf g)) []

theorem frames_mem_elim (g : Grid) (f : Frame) (hf : f ∈ frames g) :
    ∃ b ∈ blockDefinitions g, b.year = f.year ∧
      cleanedRows g b.start b.stop b.col ≠ [] ∧
      f.rows = processRows (cleanedRows g b.start b.stop b.col) := by
  unfold frames at hf
  rcases List.mem_filterMap.mp hf with ⟨b, hb, hfb⟩
  by_cases hc : 0 < nCols g ∧ b.col < nCols g
  · rw [if_pos hc] at hfb
    by_cases hr : cleanedRows g b.start b.stop b.col = []
    · simp [hr] at hfb
    · dsimp only [] at hfb
      rw [if_neg hr] at hfb
      obtain rfl : (⟨b.year, processRows (cleanedRows g b.start b.stop b.col)⟩ : Frame) = f :=
        Option.some_inj.mp hfb
      exact ⟨b, hb, rfl, hr, rfl⟩
  · rw [if_neg hc] at hfb
    cases hfb

theorem tagSonota_names :
    ∀ (l : List (String × ℚ)) (k : Nat),
      (∀ p ∈ l, p.1 ≠ sentinel → stripTempSuffix p.1 = p.1) →
      ∀ nm ∈ (tagSonota k l).map Prod.fst,
        (∃ j, nm = tagName j) ∨ (nm ≠ sentinel ∧ stripTempSuffix nm = nm) := by
  intro l
  induction l with
  | nil => intro k _ nm hnm; cases hnm
  | cons p rest ih =>
    intro k hno nm hnm
    obtain ⟨m, q⟩ := p
    by_cases hs : m = sentinel
    · rw [tagSonota, if_pos hs, List.map_cons] at hnm
      rcases List.mem_cons.mp hnm with rfl | hnm
      · exact Or.inl ⟨k, rfl⟩
      · exact ih (k + 1) (fun p hp => hno p (List.mem_cons_of_mem _ hp)) nm hnm
    · rw [tagSonota, if_neg hs, List.map_cons] at hnm
      rcases List.mem_cons.mp hnm with rfl | hnm
      · exact Or.inr ⟨hs, hno (nm, q) (List.mem_cons_self _ _) hs⟩
      · exact ih k (fun p hp => hno p (List.mem_cons_of_mem _ hp)) nm hnm

theorem processRows_names (rows : List (String × Cell))
    (hno : ∀ p ∈ rows, p.1 ≠ sentinel → stripTempSuffix p.1 = p.1) :
    ∀ nm ∈ (processRows rows).map Prod.fst,
      (∃ j, nm = tagName j) ∨ (nm ≠ sentinel ∧ stripTempSuffix nm = nm) := by
  unfold processRows
  exact tagSonota_names _ 0 (parsed_hno rows hno)

theorem find?_filter {α : Type} (p q : α → Bool) (h : ∀ x, p x = true → q x = true) :
    ∀ l : List α, l.find? p = (l.filter q).find? p := by
  intro l
  induction l with
  | nil => rfl
  | cons a rest ih =>
    cases hp : p a with
    | true =>
      rw [List.find?_cons_of_pos _ hp, List.filter_cons, if_pos (h a hp),
        List.find?_cons_of_pos _ hp]
    | false =>
      rw [List.find?_cons_of_neg _ (by simp [hp]), List.filter_cons]
      by_cases hq : q a = true
      · rw [if_pos hq, List.find?_cons_of_neg _ (by simp [hp])]
        exact ih
      · rw [if_neg hq]
        exact ih

theorem find?_enum_tag {β : Type} (G : β → ℚ) (j : Nat) :
    ∀ (A : List β) (i : Nat),
      (((A.enumFrom i).map (fun ip => (tagName ip.1, G ip.2))).find?
          (fun p => p.1 = tagName j)) =
        if j < i then none else (A[j - i]?).map (fun a => (tagName j, G a)) := by
  intro A
  induction A with
  | nil =>
    intro i
    simp [List.enumFrom]
  | cons a rest ih =>
    intro i
    rw [show (a :: rest).enumFrom i = (i, a) :: rest.enumFrom (i + 1) from rfl, List.map_cons]
    by_cases hij : i = j
    · subst hij
      rw [List.find?_cons_of_pos _ (by simp)]
      rw [if_neg (by omega), show i - i = 0 from by omega]
      simp
    · rw [List.find?_cons_of_neg _ (by
        simp only [decide_eq_true_eq]
        exact fun h => hij (tagName_injective h))]
      rw [ih (i + 1)]
      by_cases hj : j < i
      · rw [if_pos (by omega), if_pos hj]
      · rw [if_neg (by omega), if_neg hj]
        have h1 : j - i = (j - (i + 1)) + 1 := by omega
        rw [h1, List.getElem?_cons_succ]

theorem range_map_get_sum {α : Type} (F : α → ℤ) :
    ∀ L : List α, ((List.range L.length).map
      (fun j => ((L[j]?).map F).getD 0)).sum = (L.map F).sum := by
  intro L
  induction L with
  | nil => rfl
  | cons a rest ih =>
    rw [List.length_cons, List.range_succ_eq_map, List.map_cons]
    simp only [List.getElem?_cons_zero, Option.map_some', Option.getD_some]
    rw [List.map_map]
    have hfun : ((fun j => (((a :: rest)[j]?).map F).getD 0) ∘ Nat.succ) =
        (fun j => ((rest[j]?).map F).getD 0) := by
      funext j
      simp [List.getElem?_cons_succ]
    rw [hfun]
    rw [List.sum_cons, ih, List.map_cons, List.sum_cons]

theorem sum_eq_of_zero_off {φ : String → ℤ} {K T : List String}
    (hK : K.Nodup) (hT : T.Nodup) (hsub : ∀ k ∈ T, k ∈ K)
    (hzero : ∀ k ∈ K, k ∉ T → φ k = 0) :
    (K.map φ).sum = (T.map φ).sum := by
  rw [← List.sum_toFinset φ hK, ← List.sum_toFinset φ hT]
  refine (Finset.sum_subset ?_ ?_).symm
  · intro x hx
    exact List.mem_toFinset.mpr (hsub x (List.mem_toFinset.mp hx))
  · intro x hx hnx
    exact hzero x (List.mem_toFinset.mp hx) (fun h => hnx (List.mem_toFinset.mpr h))

/-- C2 amended: for every grid whose cleaned item names carry no synthetic
suffix collision, and every year of the consolidated table, the total amount
of the rows labelled with the sentinel equals the sum of the truncated
amounts of the source rows of that year whose trimmed name is the sentinel:
no sentinel row is dropped by deduplication or by the merge, but each
amount is truncated to an integer by the astype int cast of line 93. -/
theorem c2_other_conservation (g : Grid) (t : Table) (y : Nat)
    (h : consolidate_pl_sheets g = some t)
    (hno : ∀ b ∈ blockDefinitions g, ∀ p ∈ cleanedRows g b.start b.stop b.col,
      p.1 ≠ sentinel → stripTempSuffix p.1 = p.1)
    (hy : y ∈ t.years) :
    sonotaTableTotal t y = ((sonotaSourceAmounts g y).map ratTrunc).sum := by
  obtain ⟨hyears, hrows⟩ := consolidate_some_eq g t h
  have hymem : y ∈ (frames g).map Frame.year := by
    rw [hyears] at hy
    exact (sortNat_perm ((frames g).map Frame.year)).mem_iff.mp hy
  rcases List.mem_map.mp hymem with ⟨f, hfmem, hfy⟩
  rcases frames_mem_elim g f hfmem with ⟨b, hb, hbyear, hbne, hfrows⟩
  have hfind : (blockDefinitions g).find? (fun b' => b'.year = y) = some b :=
    find?_key_eq BlockDef.year (blockDefinitions g) b y (blockDefs_years_nodup g) hb
      (by rw [hbyear, hfy])
  set L := (cleanedRows g b.start b.stop b.col).filter (fun p => p.1 = sentinel) with hL
  have hsrc : sonotaSourceAmounts g y = L.map (fun p => parseAmount p.2) := by
    unfold sonotaSourceAmounts
    rw [hfind]
  have hsent : f.rows.filter (fun p => stripTempSuffix p.1 = sentinel) =
      (L.enum).map (fun ip => (tagName ip.1, parseAmount ip.2.2)) := by
    rw [hfrows, processRows_sentinel _ (hno b hb), hL]
  have hfind2 : ∀ j : Nat, f.rows.find? (fun p => p.1 = tagName j) =
      (L[j]?).map (fun p => (tagName j, parseAmount p.2)) := by
    intro j
    rw [find?_filter (fun p => p.1 = tagName j)
      (fun p => stripTempSuffix p.1 = sentinel) ?imp f.rows]
    case imp =>
      intro x hx
      simp only [decide_eq_true_eq] at hx ⊢
      rw [hx, stripTempSuffix_tagName]
    rw [hsent]
    rw [show L.enum = L.enumFrom 0 from rfl]
    rw [find?_enum_tag (fun p : String × Cell => parseAmount p.2) j L 0]
    rw [if_neg (by omega), show j - 0 = j from rfl]
  have hlook : ∀ j : Nat, lookupD f.rows (tagName j) =
      ((L[j]?).map (fun p => parseAmount p.2)).getD 0 := by
    intro j
    unfold lookupD
    rw [hfind2 j]
    cases L[j]? with
    | none => rfl
    | some p => rfl
  have htag_mem : ∀ j, j < L.length → tagName j ∈ f.rows.map Prod.fst := by
    intro j hj
    have h2 := hfind2 j
    rw [List.getElem?_eq_getElem hj, Option.map_some'] at h2
    exact List.mem_map.mpr ⟨_, List.mem_of_find?_eq_some h2, rfl⟩
  set K := (keysUnion (frames g)).filter (fun k => stripTempSuffix k = sentinel) with hK
  set T := (List.range L.length).map tagName with hT
  have htotal : sonotaTableTotal t y =
      (K.map (fun k => ratTrunc (mergedValue (frames g) k y))).sum := by
    unfold sonotaTableTotal
    rw [hrows]
    rw [List.filter_map]
    have hpred : ((fun p : String × List Int => decide (p.1 = sentinel)) ∘
        (fun k => (stripTempSuffix k, ((sortNat ((frames g).map Frame.year)).map
          (fun y' => mergedValue (frames g) k y')).map ratTrunc))) =
        (fun k => decide (stripTempSuffix k = sentinel)) := rfl
    rw [hpred]
    rw [List.map_map]
    apply congrArg List.sum
    apply List.map_congr_left
    intro k _
    show (((sortNat ((frames g).map Frame.year)).map
        (fun y' => mergedValue (frames g) k y')).map ratTrunc).getD (idxOfNat y t.years) 0 =
      ratTrunc (mergedValue (frames g) k y)
    rw [List.map_map, ← hyears]
    exact getD_map_idx (fun y' => ratTrunc (mergedValue (frames g) k y')) 0 t.years y hy
  have hKT : (K.map (fun k => ratTrunc (mergedValue (frames g) k y))).sum =
      (T.map (fun k => ratTrunc (mergedValue (frames g) k y))).sum := by
    apply sum_eq_of_zero_off
    · exact (keysUnion_nodup (frames g)).filter _
    · exact List.Nodup.map (fun a b hab => tagName_injective hab) (List.nodup_range _)
    · intro k hkT
      rcases List.mem_map.mp hkT with ⟨j, hjr, rfl⟩
      rw [List.mem_range] at hjr
      rw [hK, List.mem_filter]
      refine ⟨(mem_keysUnion (frames g) _).mpr ⟨f, hfmem, htag_mem j hjr⟩, ?_⟩
      simp [stripTempSuffix_tagName]
    · intro k hkK hkT
      rw [hK, List.mem_filter] at hkK
      obtain ⟨hkU, hkS⟩ := hkK
      simp only [decide_eq_true_eq] at hkS
      rcases (mem_keysUnion (frames g) k).mp hkU with ⟨f', hf', hkf'⟩
      rcases frames_mem_elim g f' hf' with ⟨b', hb', _, _, hf'rows⟩
      have hnames := processRows_names _ (hno b' hb') k (by rw [← hf'rows]; exact hkf')
      rcases hnames with ⟨j, rfl⟩ | ⟨hne, hplain⟩
      · have hjL : ¬ j < L.length := by
          intro hj
          exact hkT (List.mem_map.mpr ⟨j, List.mem_range.mpr hj, rfl⟩)
        rw [← hfy, mergedValue_frame (frames g) _ f (frames_years_nodup g) hfmem]
        rw [hlook j]
        rw [List.getElem?_eq_none (by omega)]
        simp [ratTrunc_zero]
      · have hks : k = sentinel := by rw [← hplain]; exact hkS
        exact absurd hks hne
  have hTsum : (T.map (fun k => ratTrunc (mergedValue (frames g) k y))).sum =
      ((sonotaSourceAmounts g y).map ratTrunc).sum := by
    rw [hsrc, hT, List.map_map]
    have hcong : ∀ j ∈ List.range L.length,
        ((fun k => ratTrunc (mergedValue (frames g) k y)) ∘ tagName) j =
        (fun j => ((L[j]?).map (fun p => ratTrunc (parseAmount p.2))).getD 0) j := by
      intro j hj
      rw [List.mem_range] at hj
      show ratTrunc (mergedValue (frames g) (tagName j) y) = _
      rw [← hfy, mergedValue_frame (frames g) _ f (frames_years_nodup g) hfmem, hlook j]
      simp [List.getElem?_eq_getElem hj]
    rw [List.map_congr_left hcong]
    rw [range_map_get_sum (fun p : String × Cell => ratTrunc (parseAmount p.2)) L]
    rw [List.map_map]
    rfl
  rw [htotal, hKT, hTsum]

/-- C7: the consolidated table is rectangular and zero filled: its year
columns are the extraction years sorted strictly ascending whatever the
extraction order was, every row carries one value per year column, every
item name appearing in any per-year extraction appears (suffix stripped)
as a row of the table, and an item absent from the extraction of a year
has value 0 in that year's column. -/
theorem c7_zero_fill_sorted (g : Grid) (t : Table)
    (h : consolidate_pl_sheets g = some t) :
    List.Pairwise (· < ·) t.years ∧
    t.years = sortNat ((frames g).map Frame.year) ∧
    (∀ p ∈ t.rows, p.2.length = t.years.length) ∧
    (∀ f ∈ frames g, ∀ nm ∈ f.rows.map Prod.fst,
      stripTempSuffix nm ∈ t.rows.map Prod.fst) ∧
    (∀ k, k ∈ keysUnion (frames g) →
      (stripTempSuffix k, ((sortNat ((frames g).map Frame.year)).map
        (fun y' => mergedValue (frames g) k y')).map ratTrunc) ∈ t.rows ∧
      ∀ y ∈ t.years, (∀ f ∈ frames g, f.year = y → k ∉ f.rows.map Prod.fst) →
        (((sortNat ((frames g).map Frame.year)).map
          (fun y' => mergedValue (frames g) k y')).map ratTrunc).getD
            (idxOfNat y t.years) 0 = 0) := by
  obtain ⟨hyears, hrows⟩ := consolidate_some_eq g t h
  refine ⟨?_, hyears, ?_, ?_, ?_⟩
  · rw [hyears]
    exact sortNat_strict_of_nodup (frames_years_nodup g)
  · intro p hp
    rw [hrows] at hp
    rcases List.mem_map.mp hp with ⟨k, _, rfl⟩
    show (((sortNat ((frames g).map Frame.year)).map
      (fun y' => mergedValue (frames g) k y')).map ratTrunc).length = t.years.length
    rw [List.length_map, List.length_map, hyears]
  · intro f hf nm hnm
    rw [hrows, List.map_map]
    exact List.mem_map.mpr ⟨nm, (mem_keysUnion (frames g) nm).mpr ⟨f, hf, hnm⟩, rfl⟩
  · intro k hk
    constructor
    · rw [hrows]
      exact List.mem_map.mpr ⟨k, hk, rfl⟩
    · intro y hy habs
      rw [List.map_map, ← hyears]
      rw [getD_map_idx (ratTrunc ∘ fun y' => mergedValue (frames g) k y') 0 t.years y hy]
      show ratTrunc (mergedValue (frames g) k y) = 0
      rw [mergedValue_zero (frames g) k y habs, ratTrunc_zero]

/-- C10: every amount of the consolidated table is an integer, obtained by
truncating (toward zero, the numpy astype int cast) the rational value of
the merged zero-filled table; the year-over-year table is then computed by
calculate_yoy from these truncated integers.  In particular a parsed
fractional amount such as 10.7 appears as 10 in the consolidated output. -/
theorem c10_int_truncation (g : Grid) (t : Table)
    (h : consolidate_pl_sheets g = some t) :
    ∃ tq, consolidateQ g = some tq ∧ t.years = tq.years ∧
      t.rows = tq.rows.map (fun p => (stripTempSuffix p.1, p.2.map ratTrunc)) ∧
      (calculate_yoy t).rows = (groupSum t.rows).map
        (fun p => (p.1, (calculate_yoy t).cols.map (colValue t.years p.2))) := by
  cases hq : consolidateQ g with
  | none =>
    unfold consolidate_pl_sheets at h
    rw [hq] at h
    cases h
  | some tq =>
    unfold consolidate_pl_sheets at h
    rw [hq] at h
    simp only [Option.map_some', Option.some_inj] at h
    exact ⟨tq, rfl, by rw [← h], by rw [← h], rfl⟩

/-! Facts about the year-over-year column plan and values. -/

theorem delta_mem_mergedCols (years : List Nat) (y : Nat) (h : y ∈ years) :
    YCol.delta y ∈ mergedColsPlan years := by
  unfold mergedColsPlan
  rw [List.mem_append]
  exact Or.inl (List.mem_append.mpr (Or.inr (List.mem_map.mpr ⟨y, h, rfl⟩)))

theorem pct_mem_mergedCols (years : List Nat) (y : Nat) (h : y ∈ years) :
    YCol.pct y ∈ mergedColsPlan years := by
  unfold mergedColsPlan
  rw [List.mem_append]
  exact Or.inr (List.mem_map.mpr ⟨y, h, rfl⟩)

theorem colsPlan_aux (years : List Nat) :
    ∀ l : List Nat, (∀ y ∈ l, y ∈ years) →
      l.flatMap (fun y => [YCol.val y]
        ++ (if YCol.delta y ∈ mergedColsPlan years then [YCol.delta y] else [])
        ++ (if YCol.pct y ∈ mergedColsPlan years then [YCol.pct y] else [])) =
      l.flatMap (fun y => [YCol.val y, YCol.delta y, YCol.pct y]) := by
  intro l
  induction l with
  | nil => intro _; rfl
  | cons y ys ih =>
    intro hmem
    rw [List.flatMap_cons, List.flatMap_cons]
    rw [if_pos (delta_mem_mergedCols years y (hmem y (List.mem_cons_self y ys)))]
    rw [if_pos (pct_mem_mergedCols years y (hmem y (List.mem_cons_self y ys)))]
    rw [ih (fun z hz => hmem z (List.mem_cons_of_mem y hz))]
    rfl

theorem calculate_yoy_cols (t : Table) :
    (calculate_yoy t).cols =
      (sortNat t.years).flatMap (fun y => [YCol.val y, YCol.delta y, YCol.pct y]) := by
  show sortedColsPlan t.years = _
  unfold sortedColsPlan
  exact colsPlan_aux t.years (sortNat t.years)
    (fun y hy => (sortNat_perm t.years).mem_iff.mp hy)

theorem idxOfNat_getElem :
    ∀ (l : List Nat), l.Nodup → ∀ (i y : Nat), l[i]? = some y → idxOfNat y l = i := by
  intro l
  induction l with
  | nil => intro _ i y hi; simp at hi
  | cons x xs ih =>
    intro hnd i y hi
    rcases List.nodup_cons.mp hnd with ⟨hx, hxs⟩
    cases i with
    | zero =>
      simp only [List.getElem?_cons_zero, Option.some_inj] at hi
      rw [idxOfNat, if_pos hi]
    | succ i =>
      simp only [List.getElem?_cons_succ] at hi
      have hxy : ¬ x = y := by
        intro he
        exact hx (he ▸ List.getElem?_mem hi)
      rw [idxOfNat, if_neg hxy, ih hxs i y hi]

/-- C3 amended: in the table returned by calculate_yoy on an
ascending-year consolidated table, every year including the earliest one
receives its delta and percentage columns, in the order value, delta,
percentage, years ascending; the earliest year's delta and percentage
cells hold no defined value (NaN) in any row. -/
theorem c3_first_year_columns (t : Table) (y0 : Nat)
    (hsorted : List.Pairwise (· < ·) t.years)
    (hhead : t.years.head? = some y0) :
    (calculate_yoy t).cols =
      t.years.flatMap (fun y => [YCol.val y, YCol.delta y, YCol.pct y]) ∧
    (∀ vs : List Int, colValue t.years vs (YCol.delta y0) = none ∧
      colValue t.years vs (YCol.pct y0) = none) ∧
    (calculate_yoy t).rows = (groupSum t.rows).map
      (fun p => (p.1, (calculate_yoy t).cols.map (colValue t.years p.2))) := by
  have hsort : sortNat t.years = t.years :=
    sortNat_eq_of_sorted t.years (hsorted.imp le_of_lt)
  have hidx : idxOfNat y0 t.years = 0 := by
    cases hyl : t.years with
    | nil => rw [hyl] at hhead; cases hhead
    | cons z zs =>
      rw [hyl] at hhead
      simp only [List.head?_cons, Option.some_inj] at hhead
      rw [idxOfNat, if_pos hhead]
  refine ⟨?_, ?_, rfl⟩
  · rw [calculate_yoy_cols, hsort]
  · intro vs
    constructor
    · show (if idxOfNat y0 t.years = 0 then none else _) = none
      rw [if_pos hidx]
    · show (if idxOfNat y0 t.years = 0 then none
        else if _ = 0 then none else _) = none
      rw [if_pos hidx]

/-- C9: in the table returned by calculate_yoy, for every year column
after the first (in ascending order, gaps allowed), the value column holds
the year's amount, the delta column holds the difference with the
immediately preceding year column actually present, and the percentage
column holds that difference divided by the preceding value times 100;
when the preceding value is 0 the percentage is the undefined marker
(the non-finite float of the source) and no error is raised, the
computation being total. -/
theorem c9_yoy_formulas (t : Table) (hsorted : List.Pairwise (· < ·) t.years) :
    (calculate_yoy t).rows = (groupSum t.rows).map
      (fun p => (p.1, (calculate_yoy t).cols.map (colValue t.years p.2))) ∧
    ∀ (vs : List Int) (j y yp : Nat), t.years[j]? = some yp → t.years[j + 1]? = some y →
      colValue t.years vs (YCol.val y) = some ((vs.getD (j + 1) 0 : ℤ) : ℚ) ∧
      colValue t.years vs (YCol.delta y) =
        some (((vs.getD (j + 1) 0 - vs.getD j 0 : ℤ) : ℚ)) ∧
      (vs.getD j 0 ≠ 0 → colValue t.years vs (YCol.pct y) =
        some ((((vs.getD (j + 1) 0 : ℤ) : ℚ) - ((vs.getD j 0 : ℤ) : ℚ))
          / ((vs.getD j 0 : ℤ) : ℚ) * 100)) ∧
      (vs.getD j 0 = 0 → colValue t.years vs (YCol.pct y) = none) := by
  have hnd : t.years.Nodup := hsorted.imp ne_of_lt
  refine ⟨rfl, ?_⟩
  intro vs j y yp hj hj1
  have hidx : idxOfNat y t.years = j + 1 := idxOfNat_getElem t.years hnd (j + 1) y hj1
  refine ⟨?_, ?_, ?_, ?_⟩
  · show some ((vs.getD (idxOfNat y t.years) 0 : ℤ) : ℚ) = _
    rw [hidx]
  · show (if idxOfNat y t.years = 0 then none else some (((vs.getD (idxOfNat y t.years) 0 -
      vs.getD (idxOfNat y t.years - 1) 0 : ℤ) : ℚ))) = _
    rw [hidx, if_neg (by omega)]
    have : j + 1 - 1 = j := by omega
    rw [this]
  · intro hne
    show (if idxOfNat y t.years = 0 then none
      else if vs.getD (idxOfNat y t.years - 1) 0 = 0 then none
      else some ((((vs.getD (idxOfNat y t.years) 0 : ℤ) : ℚ) -
        ((vs.getD (idxOfNat y t.years - 1) 0 : ℤ) : ℚ))
        / ((vs.getD (idxOfNat y t.years - 1) 0 : ℤ) : ℚ) * 100)) = _
    rw [hidx, if_neg (by omega)]
    have h1 : j + 1 - 1 = j := by omega
    rw [h1, if_neg hne]
  · intro hzero
    show (if idxOfNat y t.years = 0 then none
      else if vs.getD (idxOfNat y t.years - 1) 0 = 0 then none else _) = none
    rw [hidx, if_neg (by omega)]
    have h1 : j + 1 - 1 = j := by omega
    rw [h1, if_pos hzero]

/-! Concrete grids used by the counterexamples and witnesses. -/

/-- The round-trip scenario grid: year marks 2022 at row 0 column 1 and
2023 at row 5 column 1; Revenue 100 and two sentinel rows 5 and 3 under
2022; Revenue 120 and one sentinel row 4 under 2023. -/
def gScenario : Grid :=
  [[some "item", some "2022"],
   [some "Revenue", some "100"],
   [some "その他", some "5"],
   [some "その他", some "3"],
   [some "", some ""],
   [some "item", some "2023"],
   [some "Revenue", some "120"],
   [some "その他", some "4"]]

/-- The table consolidate_pl_sheets returns on the scenario grid. -/
def tScenario : Table :=
  ⟨[2022, 2023], [("Revenue", [100, 120]), (sentinel, [5, 4]), (sentinel, [3, 0])]⟩

/-- A grid whose two sentinel rows carry the fractional amount 1.5. -/
def gFrac : Grid :=
  [[some "x", some "2022"],
   [some "その他", some "1.5"],
   [some "その他", some "1.5"]]

/-- The table consolidate_pl_sheets returns on gFrac: each 1.5 was
truncated to 1 by the astype int cast. -/
def tFrac : Table := ⟨[2022], [(sentinel, [1]), (sentinel, [1])]⟩

/-- A grid with a missing item-name cell (row 1) and a whitespace-only
item-name cell (row 2). -/
def gNanName : Grid :=
  [[some "x", some "2022"],
   [none, some "7"],
   [some "  ", some "9"]]

/-- A grid with one fractional amount 10.7. -/
def gTenSeven : Grid :=
  [[some "x", some "2022"],
   [some "A", some "10.7"]]

/-- A two-year consolidated table with a single row. -/
def tTwoYears : Table := ⟨[2022, 2023], [("A", [1, 2])]⟩

/-- One extraction pass input with a duplicated plain name A and two
sentinel rows. -/
def rowsPass : List (String × Cell) :=
  [("A", some "1"), ("その他", some "2"), ("A", some "3"), ("その他", some "4")]

/-- C1 counterexample: on the scenario grid, the table returned by
consolidate_pl_sheets holds two rows labelled with the sentinel, so item
names are not unique and there is no single re-aggregated Other row as
the claim states. -/
theorem c1_counterexample :
    consolidate_pl_sheets gScenario = some tScenario ∧
    (tScenario.rows.map Prod.fst).count "その他" = 2 ∧
    ¬ (tScenario.rows.map Prod.fst).Nodup :=
  ⟨by with_unfolding_all rfl, by decide, by decide⟩

/-- C1 amended: consolidate_pl_sheets strips the disambiguation suffixes
but performs no re-aggregation: each source sentinel occurrence stays a
separate row with its own zero-filled amounts (5 and 4; 3 and 0 on the
scenario grid), and the summation to a single Other row (8 and 4) only
happens downstream, in the groupby sum of calculate_yoy. -/
theorem c1_no_reaggregation :
    consolidate_pl_sheets gScenario = some tScenario ∧
    tScenario.rows = [("Revenue", [100, 120]), (sentinel, [5, 4]), (sentinel, [3, 0])] ∧
    (calculate_yoy tScenario).rows =
      [("Revenue", [some 100, none, none, some 120, some 20, some 20]),
       (sentinel, [some 8, none, none, some 4, some (-4), some (-50)])] :=
  ⟨by with_unfolding_all rfl, rfl, by with_unfolding_all rfl⟩

/-- C2 counterexample: with two sentinel source rows of amount 1.5 the
table total is 1 plus 1 equals 2 while the sum of the source amounts is
3: the astype int cast truncates each row before any summation, so the
claimed equality with the untruncated source sum fails. -/
theorem c2_counterexample :
    consolidate_pl_sheets gFrac = some tFrac ∧
    sonotaTableTotal tFrac 2022 = 2 ∧
    (sonotaSourceAmounts gFrac 2022).sum = 3 ∧
    ((2 : ℤ) : ℚ) ≠ 3 :=
  ⟨by with_unfolding_all rfl, by decide, by with_unfolding_all rfl, by norm_num⟩

/-- C2 witness: the conservation equality at the concrete scenario grid
and year 2022. -/
theorem c2_witness :
    sonotaTableTotal tScenario 2022 =
      ((sonotaSourceAmounts gScenario 2022).map ratTrunc).sum :=
  c2_other_conservation gScenario tScenario 2022 (by with_unfolding_all rfl)
    (by decide) (by decide)

/-- C3 counterexample: on a table with ascending years 2022 and 2023 the
earliest year 2022 does receive adjacent delta and percentage columns:
the pandas diff and pct_change emit a column for every input column, and
the membership guard of lines 121 and 123 of excel.py always succeeds. -/
theorem c3_counterexample :
    sortNat tTwoYears.years = [2022, 2023] ∧
    (calculate_yoy tTwoYears).cols =
      [YCol.val 2022, YCol.delta 2022, YCol.pct 2022,
       YCol.val 2023, YCol.delta 2023, YCol.pct 2023] ∧
    YCol.delta 2022 ∈ (calculate_yoy tTwoYears).cols ∧
    YCol.pct 2022 ∈ (calculate_yoy tTwoYears).cols := by
  decide

/-- C3 witness: the amended statement at the scenario table. -/
theorem c3_witness :
    (calculate_yoy tScenario).cols =
      tScenario.years.flatMap (fun y => [YCol.val y, YCol.delta y, YCol.pct y]) ∧
    (∀ vs : List Int, colValue tScenario.years vs (YCol.delta 2022) = none ∧
      colValue tScenario.years vs (YCol.pct 2022) = none) ∧
    (calculate_yoy tScenario).rows = (groupSum tScenario.rows).map
      (fun p => (p.1, (calculate_yoy tScenario).cols.map (colValue tScenario.years p.2))) :=
  c3_first_year_columns tScenario 2022 (by decide) rfl

/-- C6 witness: the dedup and tagging statement at a concrete pass. -/
theorem c6_witness :
    (processRows rowsPass).filter (fun p => p.1 = "A") =
      ((rowsPass.filter (fun p => p.1 = "A")).take 1).map
        (fun p => (p.1, parseAmount p.2)) ∧
    (processRows rowsPass).filter (fun p => stripTempSuffix p.1 = sentinel) =
      ((rowsPass.filter (fun p => p.1 = sentinel)).enum).map
        (fun ip => (tagName ip.1, parseAmount ip.2.2)) :=
  c6_dedup_and_tag rowsPass "A" (by decide) (by decide) (by decide)

/-- C7 witness: the zero-fill and sorted-year statement at the scenario
grid. -/
theorem c7_witness :
    List.Pairwise (· < ·) tScenario.years ∧
    tScenario.years = sortNat ((frames gScenario).map Frame.year) ∧
    (∀ p ∈ tScenario.rows, p.2.length = tScenario.years.length) ∧
    (∀ f ∈ frames gScenario, ∀ nm ∈ f.rows.map Prod.fst,
      stripTempSuffix nm ∈ tScenario.rows.map Prod.fst) ∧
    (∀ k, k ∈ keysUnion (frames gScenario) →
      (stripTempSuffix k, ((sortNat ((frames gScenario).map Frame.year)).map
        (fun y' => mergedValue (frames gScenario) k y')).map ratTrunc) ∈ tScenario.rows ∧
      ∀ y ∈ tScenario.years, (∀ f ∈ frames gScenario, f.year = y → k ∉ f.rows.map Prod.fst) →
        (((sortNat ((frames gScenario).map Frame.year)).map
          (fun y' => mergedValue (frames gScenario) k y')).map ratTrunc).getD
            (idxOfNat y tScenario.years) 0 = 0) :=
  c7_zero_fill_sorted gScenario tScenario (by with_unfolding_all rfl)

/-- C8: the code keeps rows whose item-name cell is missing.  On gNanName
the missing name of row 1 survives as the literal string nan with amount
7 (the astype str of line 68 runs before the dropna of line 69, which is
therefore dead), while the whitespace-only name of row 2 is dropped; the
claim, like the dead dropna, expects both to be dropped. -/
theorem c8_nan_name_bug :
    consolidate_pl_sheets gNanName = some ⟨[2022], [("nan", [7])]⟩ := by
  with_unfolding_all rfl

/-- C9 witness: the delta and percentage formulas at the scenario table
for the year pair 2022 and 2023. -/
theorem c9_witness :
    colValue tScenario.years [100, 120] (YCol.val 2023) = some (((120 : ℤ) : ℚ)) ∧
    colValue tScenario.years [100, 120] (YCol.delta 2023) =
      some ((((120 : ℤ) - 100 : ℤ) : ℚ)) ∧
    colValue tScenario.years [100, 120] (YCol.pct 2023) =
      some ((((120 : ℤ) : ℚ) - ((100 : ℤ) : ℚ)) / ((100 : ℤ) : ℚ) * 100) ∧
    colValue tScenario.years [0, 120] (YCol.pct 2023) = none := by
  have h := (c9_yoy_formulas tScenario (by decide)).2
  have h1 := h [100, 120] 0 2023 2022 rfl rfl
  have h2 := h [0, 120] 0 2023 2022 rfl rfl
  exact ⟨h1.1, h1.2.1, h1.2.2.1 (by decide), h2.2.2.2 (by decide)⟩

/-- C10 witness: the truncation statement at the concrete grid carrying
the amount 10.7, whose consolidated value is 10 while the merged rational
value is 107 tenths. -/
theorem c10_witness :
    consolidate_pl_sheets gTenSeven = some ⟨[2022], [("A", [10])]⟩ ∧
    consolidateQ gTenSeven = some ⟨[2022], [("A", [(107 : ℚ) / 10])]⟩ ∧
    (∃ tq, consolidateQ gTenSeven = some tq ∧
      (⟨[2022], [("A", [10])]⟩ : Table).years = tq.years ∧
      (⟨[2022], [("A", [10])]⟩ : Table).rows =
        tq.rows.map (fun p => (stripTempSuffix p.1, p.2.map ratTrunc)) ∧
      (calculate_yoy ⟨[2022], [("A", [10])]⟩).rows =
        (groupSum (⟨[2022], [("A", [10])]⟩ : Table).rows).map
          (fun p => (p.1, (calculate_yoy ⟨[2022], [("A", [10])]⟩).cols.map
            (colValue (⟨[2022], [("A", [10])]⟩ : Table).years p.2)))) :=
  ⟨by with_unfolding_all rfl, by with_unfolding_all rfl,
    c10_int_truncation gTenSeven ⟨[2022], [("A", [10])]⟩ (by with_unfolding_all rfl)⟩

end Excel
